import Mathlib

/-!
Verification of the HTML-to-Markdown conversion pipeline of
`scripts/convert_html_to_markdown.py` (class `HtmlToMarkdownConverter`).

The program is a sequence of regular-expression rewrite passes over one text
buffer.  We embed it shallowly: strings are `List Char`, and every regex
operation of the source (`re.sub`, `re.search`, `re.findall`, `re.split`) is
translated into an explicit left-to-right scanner with the same semantics
(leftmost match, greedy / lazy repetition as used by the concrete pattern,
`re.DOTALL` everywhere `.` occurs, `re.IGNORECASE` where the source sets it).
Scanners that need unbounded lookahead take an explicit fuel argument; the
wrapper functions instantiate the fuel with the input length, which is always
sufficient because every match consumes at least one character.  With fuel `0`
a scanner returns its input unchanged, so identity lemmas hold for every fuel.
-/

set_option maxRecDepth 40000
set_option maxHeartbeats 4000000

abbrev Str := List Char

/-- Characters matched by Python's `\s` and stripped by `str.strip()`. -/
def isPySpace (c : Char) : Bool :=
  c == ' ' || c == '\t' || c == '\n' || c == '\r' || c == Char.ofNat 11 || c == Char.ofNat 12

/-- Shorthand for the character list of a string literal. -/
def strL (s : String) : Str := s.data

/-- Does `lit` occur at the head of `s`? -/
def startsL : Str → Str → Bool
  | [], _ => true
  | _ :: _, [] => false
  | a :: as, b :: bs => a == b && startsL as bs

/-- Case-insensitive `startsL`; `lit` is given in lower case. -/
def startsCI : Str → Str → Bool
  | [], _ => true
  | _ :: _, [] => false
  | a :: as, b :: bs => a == b.toLower && startsCI as bs

/-- Leftmost occurrence of `lit`: returns the text before the match and the
text after it.  Fuel-driven; `findLitW` supplies sufficient fuel. -/
def findLit (lit : Str) : Nat → Str → Option (Str × Str)
  | 0, _ => none
  | fuel + 1, s =>
    if startsL lit s then some ([], s.drop lit.length)
    else
      match s with
      | [] => none
      | c :: cs =>
        match findLit lit fuel cs with
        | some (a, b) => some (c :: a, b)
        | none => none

def findLitW (lit s : Str) : Option (Str × Str) := findLit lit s.length s

/-- Case-insensitive variant of `findLit` (`lit` in lower case). -/
def findLitCI (lit : Str) : Nat → Str → Option (Str × Str)
  | 0, _ => none
  | fuel + 1, s =>
    if startsCI lit s then some ([], s.drop lit.length)
    else
      match s with
      | [] => none
      | c :: cs =>
        match findLitCI lit fuel cs with
        | some (a, b) => some (c :: a, b)
        | none => none

def findLitCIW (lit s : Str) : Option (Str × Str) := findLitCI lit s.length s

/-- Does `lit` occur anywhere in `s`? -/
def containsL (lit s : Str) : Bool := (findLitW lit s).isSome

/-- Case-insensitive containment (`lit` in lower case). -/
def containsCI (lit s : Str) : Bool := (findLitCIW lit s).isSome

/-- Match `[^>]*>` at the head of `s`: the run of non-`>` characters and the
text after the closing `>`; `none` when no `>` follows. -/
def splitAtGt (s : Str) : Option (Str × Str) :=
  match s.dropWhile (· ≠ '>') with
  | '>' :: rest => some (s.takeWhile (· ≠ '>'), rest)
  | _ => none

/-- Index of the last occurrence of `lit` (Python `str.rfind`), `none` if absent. -/
def lastOccAux (lit : Str) : Nat → Nat → Option Nat → Str → Option Nat
  | 0, _, best, _ => best
  | fuel + 1, i, best, s =>
    let best' := if startsL lit s then some i else best
    match s with
    | [] => best'
    | _ :: cs => lastOccAux lit fuel (i + 1) best' cs

def rfindLit (lit s : Str) : Option Nat := lastOccAux lit (s.length + 1) 0 none s

/-- Python `str.split(sep)` for a single separator character. -/
def splitCh (sep : Char) : Str → List Str
  | [] => [[]]
  | c :: rest =>
    if c = sep then [] :: splitCh sep rest
    else
      match splitCh sep rest with
      | [] => [[c]]
      | l :: ls => (c :: l) :: ls

def splitNL (s : Str) : List Str := splitCh '\n' s

def joinSep (sep : Str) : List Str → Str
  | [] => []
  | [x] => x
  | x :: y :: t => x ++ sep ++ joinSep sep (y :: t)

/-- Python `str.strip()`. -/
def pyStrip (s : Str) : Str :=
  ((s.dropWhile isPySpace).reverse.dropWhile isPySpace).reverse

/-- State-machine core of the `\n{3,}` → `\n\n` collapse (`re.sub(r'\n{3,}', '\n\n', s)`):
`pending` counts buffered consecutive newlines. -/
def collapseGo : Nat → Str → Str
  | pending, [] => List.replicate (if pending ≥ 3 then 2 else pending) '\n'
  | pending, c :: rest =>
    if c = '\n' then collapseGo (pending + 1) rest
    else List.replicate (if pending ≥ 3 then 2 else pending) '\n' ++ c :: collapseGo 0 rest

def collapseNL (s : Str) : Str := collapseGo 0 s

/-- State-machine core of `re.sub(r'<[^>]+>', '', s)`: `buf` is `some acc` (the
reversed characters seen since an unclosed `<`) while inside a candidate tag. -/
def stripTagsGo : Option Str → Str → Str
  | none, [] => []
  | none, c :: rest =>
    if c = '<' then stripTagsGo (some []) rest else c :: stripTagsGo none rest
  | some acc, [] => '<' :: acc.reverse
  | some acc, c :: rest =>
    if c = '>' then
      if acc.isEmpty then '<' :: '>' :: stripTagsGo none rest
      else stripTagsGo none rest
    else stripTagsGo (some (c :: acc)) rest

def stripTags (s : Str) : Str := stripTagsGo none s

/-- Decode one character reference after a `&`.  Models Python `html.unescape`
for the references that occur in this documentation corpus (the stdlib decodes
the full HTML5 table, which is data, not logic); unknown references are left
unchanged, as the stdlib also does. -/
def decodeEnt (s : Str) : Option (Char × Str) :=
  if startsL (strL "amp;") s then some ('&', s.drop 4)
  else if startsL (strL "lt;") s then some ('<', s.drop 3)
  else if startsL (strL "gt;") s then some ('>', s.drop 3)
  else if startsL (strL "quot;") s then some ('"', s.drop 5)
  else if startsL (strL "apos;") s then some ('\'', s.drop 5)
  else if startsL (strL "nbsp;") s then some (Char.ofNat 160, s.drop 5)
  else if startsL (strL "#39;") s then some ('\'', s.drop 4)
  else if startsL (strL "#x27;") s then some ('\'', s.drop 5)
  else none

def unescapeGo : Nat → Str → Str
  | 0, s => s
  | _, [] => []
  | fuel + 1, c :: rest =>
    if c = '&' then
      match decodeEnt rest with
      | some (d, rest') => d :: unescapeGo fuel rest'
      | none => '&' :: unescapeGo fuel rest
    else c :: unescapeGo fuel rest

/-- Models `html.unescape` (see `decodeEnt`). -/
def unescapeL (s : Str) : Str := unescapeGo s.length s

/-- Generic `re.sub` driver: `m` tries to match the pattern at the current
position, returning the replacement text and the rest of the input after the
match.  On failure the scanner advances one character, like the regex engine. -/
def rewriteAll (m : Str → Option (Str × Str)) : Nat → Str → Str
  | 0, s => s
  | _, [] => []
  | fuel + 1, c :: cs =>
    match m (c :: cs) with
    | some (rep, rest) => rep ++ rewriteAll m fuel rest
    | none => c :: rewriteAll m fuel cs

def rewriteAllW (m : Str → Option (Str × Str)) (s : Str) : Str := rewriteAll m s.length s

/-- Generic `re.findall` driver: `m` returns the captured group and the rest. -/
def findAllGo (m : Str → Option (Str × Str)) : Nat → Str → List Str
  | 0, _ => []
  | _, [] => []
  | fuel + 1, c :: cs =>
    match m (c :: cs) with
    | some (g, rest) => g :: findAllGo m fuel rest
    | none => findAllGo m fuel cs

def findAllW (m : Str → Option (Str × Str)) (s : Str) : List Str := findAllGo m s.length s

def consHead (c : Char) : List Str → List Str
  | [] => [[c]]
  | p :: ps => (c :: p) :: ps

/-- Generic `re.split` driver (pattern without capture group): parts between
matches; `m` returns the rest of the input after a match. -/
def splitMGo (m : Str → Option (Str × Str)) : Nat → Str → List Str
  | 0, s => [s]
  | _, [] => [[]]
  | fuel + 1, c :: cs =>
    match m (c :: cs) with
    | some (_, rest) => [] :: splitMGo m fuel rest
    | none => consHead c (splitMGo m fuel cs)


/-!
## Pass 1: `_extract_main_content`

`re.search(r'<main[^>]*>(.*?)</main>', s, re.DOTALL)` and the `<body>` fallback.
A single candidate suffices: if the leftmost `<main` has no `>` or no `</main>`
after it, every later candidate fails too (its search space is a suffix).
-/

def searchRegion (openLit closeLit s : Str) : Option Str :=
  match findLitW openLit s with
  | none => none
  | some (_, rest) =>
    match splitAtGt rest with
    | none => none
    | some (_, afterGt) =>
      match findLitW closeLit afterGt with
      | some (g, _) => some g
      | none => none

def extract_main_content (s : Str) : Str :=
  match searchRegion (strL "<main") (strL "</main>") s with
  | some g => g
  | none =>
    match searchRegion (strL "<body") (strL "</body>") s with
    | some g => g
    | none => s

/-!
## Pass 2: `_remove_hidden_elements`

Three `re.sub`s deleting `<div …aria-hidden="true"/hidden="true"…>.*?</div>`
(DOTALL, IGNORECASE), `<button …class="copy"…>.*?</button>` and
`<a …class="header-anchor"…>.*?</a>` (DOTALL).  The `[^>]*X[^>]*` shape means:
the text between the tag name and the first `>` contains `X`.
-/

def mHiddenDiv (t : Str) : Option (Str × Str) :=
  if startsCI (strL "<div") t then
    match splitAtGt (t.drop 4) with
    | none => none
    | some (body, rest) =>
      if containsCI (strL "aria-hidden=\"true\"") body
          || containsCI (strL "hidden=\"true\"") body then
        match findLitCIW (strL "</div>") rest with
        | some (_, after) => some ([], after)
        | none => none
      else none
  else none

def mCopyButton (t : Str) : Option (Str × Str) :=
  if startsL (strL "<button") t then
    match splitAtGt (t.drop 7) with
    | none => none
    | some (body, rest) =>
      if containsL (strL "class=\"copy\"") body then
        match findLitW (strL "</button>") rest with
        | some (_, after) => some ([], after)
        | none => none
      else none
  else none

def mHeaderAnchor (t : Str) : Option (Str × Str) :=
  if startsL (strL "<a") t then
    match splitAtGt (t.drop 2) with
    | none => none
    | some (body, rest) =>
      if containsL (strL "class=\"header-anchor\"") body then
        match findLitW (strL "</a>") rest with
        | some (_, after) => some ([], after)
        | none => none
      else none
  else none

def remove_hidden_elements (s : Str) : Str :=
  rewriteAllW mHeaderAnchor (rewriteAllW mCopyButton (rewriteAllW mHiddenDiv s))

/-!
## Pass 3: `_convert_code_blocks`

The replacer `extract_code_from_pre` and its helpers, then the two `re.sub`s.
-/

/-- The single left-to-right scan of `extract_text_from_spans`: text outside
tags is kept; at `<` with no later `>` the scan stops (Python `break`). -/
def extractSpansGo : Nat → Str → Str
  | 0, _ => []
  | _, [] => []
  | fuel + 1, c :: rest =>
    if c = '<' then
      match rest.dropWhile (· ≠ '>') with
      | '>' :: r => extractSpansGo fuel r
      | _ => []
    else (c :: rest).takeWhile (· ≠ '<') ++ extractSpansGo fuel ((c :: rest).dropWhile (· ≠ '<'))

def extract_text_from_spans (s : Str) : Str := extractSpansGo s.length s

/-- Search for `class="language-([^"\s]+)`: candidates with an empty group fail
and the scan moves to the next occurrence. -/
def searchLangClass : Nat → Str → Option Str
  | 0, _ => none
  | fuel + 1, s =>
    match findLitW (strL "class=\"language-") s with
    | none => none
    | some (_, rest) =>
      let g := rest.takeWhile (fun c => c != '"' && !isPySpace c)
      if g.isEmpty then searchLangClass fuel rest else some g

/-- Search for `<span class="lang">([^<]+)</span>`. -/
def searchSpanLang : Nat → Str → Option Str
  | 0, _ => none
  | fuel + 1, s =>
    match findLitW (strL "<span class=\"lang\">") s with
    | none => none
    | some (_, rest) =>
      let g := rest.takeWhile (· ≠ '<')
      if g.isEmpty then searchSpanLang fuel rest
      else if startsL (strL "</span>") (rest.drop g.length) then some g
      else searchSpanLang fuel rest

/-- Search for `<code[^>]*>(.*?)</code>` (DOTALL): the group of the leftmost
match.  One candidate suffices (failure spaces of later candidates are subsets). -/
def searchCodeElem (b : Str) : Option Str :=
  match findLitW (strL "<code") b with
  | none => none
  | some (_, afterOpen) =>
    match splitAtGt afterOpen with
    | none => none
    | some (_, afterTag) =>
      match findLitW (strL "</code>") afterTag with
      | some (g, _) => some g
      | none => none

def lineOpenLit : Str := strL "<span class=\"line"

/-- The lookahead `(?=\s*<span class="line|$)` ( `$` matches at the end of the
string or before a final newline). -/
def laOk (u : Str) : Bool :=
  startsL lineOpenLit (u.dropWhile isPySpace) || u.isEmpty || u == ['\n']

/-- The lazy `(.*?)</span>` with the lookahead: the first `</span>` after which
the lookahead holds. -/
def lazyCloseSpan : Nat → Str → Str → Option (Str × Str)
  | 0, _, _ => none
  | _ + 1, _, [] => none
  | fuel + 1, acc, c :: cs =>
    if startsL (strL "</span>") (c :: cs) && laOk ((c :: cs).drop 7) then
      some (acc.reverse, (c :: cs).drop 7)
    else lazyCloseSpan fuel (c :: acc) cs

/-- Matcher for `<span class="line[^"]*"[^>]*>(.*?)</span>(?=\s*<span class="line|$)`. -/
def mLineSpan (t : Str) : Option (Str × Str) :=
  if startsL lineOpenLit t then
    let r := t.drop lineOpenLit.length
    match r.dropWhile (· ≠ '"') with
    | '"' :: r2 =>
      match splitAtGt r2 with
      | some (_, r3) => lazyCloseSpan (r3.length + 1) [] r3
      | none => none
    | _ => none
  else none

def findallLineSpans (s : Str) : List Str := findAllW mLineSpan s

/-- Matcher for the split pattern `<span class="line[^"]*"[^>]*>` (strategy b). -/
def mLineOpen (t : Str) : Option (Str × Str) :=
  if startsL lineOpenLit t then
    let r := t.drop lineOpenLit.length
    match r.dropWhile (· ≠ '"') with
    | '"' :: r2 =>
      match splitAtGt r2 with
      | some (_, r3) => some ([], r3)
      | none => none
    | _ => none
  else none

def splitLineParts (s : Str) : List Str := splitMGo mLineOpen s.length s

/-- The `part.rfind('</span>')` logic with its `end_idx > 0` comparison. -/
def lineContentOf (part : Str) : Str :=
  match rfindLit (strL "</span>") part with
  | some i => if i > 0 then part.take i else part
  | none => part

def extract_code_from_pre (blk : Str) : Str :=
  let language :=
    match searchLangClass blk.length blk with
    | some l => l
    | none =>
      match searchSpanLang blk.length blk with
      | some l => l
      | none => []
  match searchCodeElem blk with
  | none => blk
  | some code_content =>
    let lines := findallLineSpans code_content
    let code_text :=
      if lines.isEmpty then
        let parts := splitLineParts code_content
        if parts.length > 1 then
          joinSep ['\n']
            ((parts.drop 1).map (fun p => unescapeL (extract_text_from_spans (lineContentOf p))))
        else unescapeL (stripTags code_content)
      else joinSep ['\n'] (lines.map (fun l => unescapeL (extract_text_from_spans l)))
    strL "\n```" ++ language ++ ['\n'] ++ pyStrip code_text ++ strL "\n```\n"

/-- Resolve `<div class="language-` + `[^"]*[^>]*>`: with greedy backtracking the
matched `>` is the first `>` after the first `"`, else the last `>` before it. -/
def tagCloseLangDiv (r : Str) : Option Str :=
  let v := r.takeWhile (· ≠ '"')
  match r.dropWhile (· ≠ '"') with
  | '"' :: afterQ =>
    match afterQ.dropWhile (· ≠ '>') with
    | '>' :: rest => some rest
    | _ =>
      match rfindLit ['>'] v with
      | some i => some (r.drop (i + 1))
      | none => none
  | _ =>
    match rfindLit ['>'] r with
    | some i => some (r.drop (i + 1))
    | none => none

/-- Backtracking over `</pre>` candidates for `</pre>\s*</div>`. -/
def tryPreClosers : Nat → Str → Option Str
  | 0, _ => none
  | fuel + 1, s =>
    match findLitW (strL "</pre>") s with
    | none => none
    | some (_, afterClose) =>
      let t := afterClose.dropWhile isPySpace
      if startsL (strL "</div>") t then some (t.drop 6)
      else tryPreClosers fuel afterClose

/-- Backtracking over `<pre` candidates for `.*?<pre[^>]*>.*?</pre>\s*</div>`. -/
def codeBlockBody : Nat → Str → Option Str
  | 0, _ => none
  | fuel + 1, s =>
    match findLitW (strL "<pre") s with
    | none => none
    | some (_, afterOpen) =>
      match splitAtGt afterOpen with
      | none => none
      | some (_, afterTag) =>
        match tryPreClosers (afterTag.length + 1) afterTag with
        | some rest => some rest
        | none => codeBlockBody fuel afterOpen

/-- Matcher for `<div class="language-[^"]*[^>]*>.*?<pre[^>]*>.*?</pre>\s*</div>`,
replaced by `extract_code_from_pre` of the whole match. -/
def mCodeBlockDiv (t : Str) : Option (Str × Str) :=
  if startsL (strL "<div class=\"language-") t then
    match tagCloseLangDiv (t.drop 21) with
    | none => none
    | some afterTag =>
      match codeBlockBody (afterTag.length + 1) afterTag with
      | none => none
      | some rest => some (extract_code_from_pre (t.take (t.length - rest.length)), rest)
  else none

/-- The lazy `(.*?)</code>` of the standalone rule, with `\s*</pre>` required
after the close; on failure the close is absorbed and the scan continues. -/
def lazyCloseCode : Nat → Str → Str → Option (Str × Str)
  | 0, _, _ => none
  | _ + 1, _, [] => none
  | fuel + 1, acc, c :: cs =>
    if startsL (strL "</code>") (c :: cs)
        && startsL (strL "</pre>") (((c :: cs).drop 7).dropWhile isPySpace) then
      some (acc.reverse, ((((c :: cs).drop 7).dropWhile isPySpace)).drop 6)
    else lazyCloseCode fuel (c :: acc) cs

/-- Matcher for `<pre[^>]*>\s*<code[^>]*>(.*?)</code>\s*</pre>`. -/
def mPrePlain (t : Str) : Option (Str × Str) :=
  if startsL (strL "<pre") t then
    match splitAtGt (t.drop 4) with
    | none => none
    | some (_, r1) =>
      let r2 := r1.dropWhile isPySpace
      if startsL (strL "<code") r2 then
        match splitAtGt (r2.drop 5) with
        | none => none
        | some (_, r3) =>
          match lazyCloseCode (r3.length + 1) [] r3 with
          | none => none
          | some (g, rest) =>
            some (strL "\n```\n" ++ unescapeL (stripTags g) ++ strL "\n```\n", rest)
      else none
  else none

def convert_code_blocks (s : Str) : Str := rewriteAllW mPrePlain (rewriteAllW mCodeBlockDiv s)

/-!
## Pass 4: `_convert_inline_code`
-/

def mInlineCode (t : Str) : Option (Str × Str) :=
  if startsL (strL "<code") t then
    match splitAtGt (t.drop 5) with
    | none => none
    | some (_, rest) =>
      match findLitW (strL "</code>") rest with
      | some (g, after) => some ('`' :: unescapeL (stripTags g) ++ ['`'], after)
      | none => none
  else none

def convert_inline_code (s : Str) : Str := rewriteAllW mInlineCode s

/-!
## Pass 5: `_convert_headers`
-/

def headerRep (d : Char) (g : Str) : Str :=
  if d = '1' then []
  else
    let txt := pyStrip ((pyStrip (unescapeL (stripTags g))).filter (· ≠ Char.ofNat 8203))
    if txt.isEmpty then []
    else '\n' :: (List.replicate (d.toNat - 48) '#' ++ ' ' :: txt ++ ['\n'])

def mHeader (t : Str) : Option (Str × Str) :=
  match t with
  | '<' :: 'h' :: d :: r =>
    if '1' ≤ d ∧ d ≤ '6' then
      match splitAtGt r with
      | none => none
      | some (_, rest) =>
        match findLitW ('<' :: '/' :: 'h' :: d :: ['>']) rest with
        | some (g, after) => some (headerRep d g, after)
        | none => none
    else none
  | _ => none

def convert_headers (s : Str) : Str := rewriteAllW mHeader s


/-!
## Pass 6: `_convert_custom_blocks`
-/

/-- Matcher for the title-paragraph removal
`<p[^>]*class="custom-block-title"[^>]*>.*?</p>`. -/
def mTitlePara (t : Str) : Option (Str × Str) :=
  if startsL (strL "<p") t then
    match splitAtGt (t.drop 2) with
    | none => none
    | some (body, rest) =>
      if containsL (strL "class=\"custom-block-title\"") body then
        match findLitW (strL "</p>") rest with
        | some (_, after) => some ([], after)
        | none => none
      else none
  else none

/-- Matcher for the paragraph-content findall `<p[^>]*>(.*?)</p>`. -/
def mPara (t : Str) : Option (Str × Str) :=
  if startsL (strL "<p") t then
    match splitAtGt (t.drop 2) with
    | none => none
    | some (_, rest) => findLitW (strL "</p>") rest
  else none

/-- Search for `href="([^"]+)"` / `src="([^"]+)"` (`allowEmpty = false`) or
`alt="([^"]*)"` (`allowEmpty = true`): leftmost occurrence whose group and
closing quote satisfy the pattern; failing candidates are skipped. -/
def searchAttrGo (lit : Str) (allowEmpty : Bool) : Nat → Str → Option Str
  | 0, _ => none
  | fuel + 1, s =>
    match findLitW lit s with
    | none => none
    | some (_, rest) =>
      let v := rest.takeWhile (· ≠ '"')
      match rest.dropWhile (· ≠ '"') with
      | '"' :: _ =>
        if v.isEmpty && !allowEmpty then searchAttrGo lit allowEmpty fuel rest
        else some v
      | _ => searchAttrGo lit allowEmpty fuel rest

def searchAttrNonempty (lit s : Str) : Option Str := searchAttrGo lit false s.length s

def searchAttrAny (lit s : Str) : Option Str := searchAttrGo lit true s.length s

/-- The `convert_inner_link` replacer of `_convert_custom_blocks`: the `href`
is searched in the whole match (tag and text). -/
def mInnerLink (t : Str) : Option (Str × Str) :=
  if startsL (strL "<a") t then
    match splitAtGt (t.drop 2) with
    | none => none
    | some (_, rest) =>
      match findLitW (strL "</a>") rest with
      | some (g, after) =>
        let full := t.take (t.length - after.length)
        let ltext := stripTags g
        some (match searchAttrNonempty (strL "href=\"") full with
              | some h => '[' :: (ltext ++ ']' :: '(' :: h ++ [')'])
              | none => ltext, after)
      | none => none
  else none

/-- The `convert_block` replacer applied to a whole matched admonition block. -/
def convert_block (fb : Str) : Str :=
  let lower := fb.map Char.toLower
  let btype :=
    if containsL (strL "warning") lower then strL "WARNING"
    else if containsL (strL "danger") lower then strL "DANGER"
    else if containsL (strL "tip") lower then strL "TIP"
    else if containsL (strL "info") lower then strL "INFO"
    else strL "NOTE"
  let bc := rewriteAllW mTitlePara fb
  let paragraphs := findAllW mPara bc
  let text0 := joinSep [' '] paragraphs
  let text1 := rewriteAllW mInnerLink text0
  let text2 := pyStrip (unescapeL (stripTags text1))
  strL "\n> **" ++ btype ++ strL ":** " ++ text2 ++ ['\n']

/-- Matcher for `<div class="[^"]*custom-block[^"]*"[^>]*>.*?</div>`. -/
def mCustomBlock (t : Str) : Option (Str × Str) :=
  if startsL (strL "<div class=\"") t then
    let r := t.drop 12
    let v := r.takeWhile (· ≠ '"')
    if containsL (strL "custom-block") v then
      match r.dropWhile (· ≠ '"') with
      | '"' :: r2 =>
        match splitAtGt r2 with
        | none => none
        | some (_, rest) =>
          match findLitW (strL "</div>") rest with
          | some (_, after) => some (convert_block (t.take (t.length - after.length)), after)
          | none => none
      | _ => none
    else none
  else none

def convert_custom_blocks (s : Str) : Str := rewriteAllW mCustomBlock s

/-!
## Pass 7: `_convert_tables`
-/

/-- Lazy pair search `X(.*?)Y` for exact literals (used for `<thead>`/`<tbody>`). -/
def searchPair (openLit closeLit s : Str) : Option Str :=
  match findLitW openLit s with
  | none => none
  | some (_, rest) =>
    match findLitW closeLit rest with
    | some (g, _) => some g
    | none => none

def mTh (t : Str) : Option (Str × Str) :=
  if startsL (strL "<th") t then
    match splitAtGt (t.drop 3) with
    | none => none
    | some (_, rest) => findLitW (strL "</th>") rest
  else none

def mTr (t : Str) : Option (Str × Str) :=
  if startsL (strL "<tr") t then
    match splitAtGt (t.drop 3) with
    | none => none
    | some (_, rest) => findLitW (strL "</tr>") rest
  else none

def mTd (t : Str) : Option (Str × Str) :=
  if startsL (strL "<td") t then
    match splitAtGt (t.drop 3) with
    | none => none
    | some (_, rest) => findLitW (strL "</td>") rest
  else none

/-- Cell / list-item cleaning: strip tags, decode entities, trim. -/
def cleanCell (c : Str) : Str := pyStrip (unescapeL (stripTags c))

/-- The `while len(row) < len(headers): row.append('')` padding. -/
def padRow (h : Nat) (row : List Str) : List Str := row ++ List.replicate (h - row.length) []

def mkRowLine (cells : List Str) : Str := strL "| " ++ joinSep (strL " | ") cells ++ strL " |"

/-- The `md_lines` construction of `convert_table` (source lines 298-309). -/
def buildTableLines (headers : List Str) (rows : List (List Str)) : List Str :=
  (if headers.isEmpty then []
   else [mkRowLine headers, mkRowLine (List.replicate headers.length (strL "---"))]) ++
  rows.map (fun row => mkRowLine (padRow headers.length row))

/-- The `convert_table` replacer applied to a whole matched `<table>…</table>`. -/
def convert_table (tb : Str) : Str :=
  let headers :=
    match searchPair (strL "<thead>") (strL "</thead>") tb with
    | some hg => (findAllW mTh hg).map cleanCell
    | none => []
  let rows :=
    match searchPair (strL "<tbody>") (strL "</tbody>") tb with
    | some bg => (findAllW mTr bg).map (fun r => (findAllW mTd r).map cleanCell)
    | none => []
  if headers.isEmpty && rows.isEmpty then []
  else '\n' :: (joinSep ['\n'] (buildTableLines headers rows) ++ ['\n'])

def mTable (t : Str) : Option (Str × Str) :=
  if startsL (strL "<table") t then
    match splitAtGt (t.drop 6) with
    | none => none
    | some (_, rest) =>
      match findLitW (strL "</table>") rest with
      | some (_, after) => some (convert_table (t.take (t.length - after.length)), after)
      | none => none
  else none

def convert_tables (s : Str) : Str := rewriteAllW mTable s

/-!
## Pass 8: `_convert_images`
-/

/-- The `convert_image` replacer applied to one matched `<img…>` tag. -/
def convert_image (tag : Str) : Str :=
  let src := match searchAttrNonempty (strL "src=\"") tag with | some v => v | none => []
  let alt := match searchAttrAny (strL "alt=\"") tag with | some v => v | none => strL "image"
  if src.isEmpty then []
  else strL "\n![" ++ alt ++ strL "](" ++ src ++ strL ")\n"

/-- Matcher for `<img[^>]+/?>` (IGNORECASE): `<img`, at least one non-`>`
character, then `>` (the optional `/` is part of `[^>]+`). -/
def mImg (t : Str) : Option (Str × Str) :=
  if startsCI (strL "<img") t then
    let r := t.drop 4
    let body := r.takeWhile (· ≠ '>')
    if body.isEmpty then none
    else
      match r.dropWhile (· ≠ '>') with
      | '>' :: after => some (convert_image (t.take (body.length + 5)), after)
      | _ => none
  else none

def convert_images (s : Str) : Str := rewriteAllW mImg s

/-!
## Pass 9: `_convert_links`
-/

/-- The `convert_link` replacer: `full` is the whole match, `g` the inner text. -/
def convert_link (full g : Str) : Str :=
  let href := match searchAttrNonempty (strL "href=\"") full with | some v => v | none => []
  let ltext := pyStrip (unescapeL (stripTags g))
  if ltext.isEmpty then []
  else if href.isEmpty then ltext
  else if href.head? = some '#' then ltext
  else '[' :: (ltext ++ ']' :: '(' :: href ++ [')'])

def mLink (t : Str) : Option (Str × Str) :=
  if startsL (strL "<a") t then
    match splitAtGt (t.drop 2) with
    | none => none
    | some (_, rest) =>
      match findLitW (strL "</a>") rest with
      | some (g, after) => some (convert_link (t.take (t.length - after.length)) g, after)
      | none => none
  else none

def convert_links (s : Str) : Str := rewriteAllW mLink s

/-!
## Pass 10: `_convert_lists`
-/

def mLi (t : Str) : Option (Str × Str) :=
  if startsL (strL "<li") t then
    match splitAtGt (t.drop 3) with
    | none => none
    | some (_, rest) => findLitW (strL "</li>") rest
  else none

def mUl (t : Str) : Option (Str × Str) :=
  if startsL (strL "<ul") t then
    match splitAtGt (t.drop 3) with
    | none => none
    | some (_, rest) =>
      match findLitW (strL "</ul>") rest with
      | some (g, after) =>
        let items := (findAllW mLi g).map cleanCell
        some ('\n' :: (joinSep ['\n'] (items.map (fun i => strL "- " ++ i)) ++ ['\n']), after)
      | none => none
  else none

def numL (n : Nat) : Str := (Nat.repr n).data

def mOl (t : Str) : Option (Str × Str) :=
  if startsL (strL "<ol") t then
    match splitAtGt (t.drop 3) with
    | none => none
    | some (_, rest) =>
      match findLitW (strL "</ol>") rest with
      | some (g, after) =>
        let items := (findAllW mLi g).map cleanCell
        some ('\n' :: (joinSep ['\n']
          ((List.enumFrom 1 items).map (fun p => numL p.1 ++ strL ". " ++ p.2)) ++ ['\n']), after)
      | none => none
  else none

def convert_lists (s : Str) : Str := rewriteAllW mOl (rewriteAllW mUl s)

/-!
## Pass 11: `_convert_paragraphs`
-/

def mP (t : Str) : Option (Str × Str) :=
  if startsL (strL "<p") t then
    match splitAtGt (t.drop 2) with
    | none => none
    | some (_, rest) =>
      match findLitW (strL "</p>") rest with
      | some (g, after) =>
        let rep :=
          if containsL (strL "```") g then g
          else
            let txt := pyStrip (unescapeL (stripTags g))
            if txt.isEmpty then [] else '\n' :: (txt ++ ['\n'])
        some (rep, after)
      | none => none
  else none

def convert_paragraphs (s : Str) : Str := rewriteAllW mP s

/-!
## Pass 12: `_convert_text_formatting`
-/

def mPair (openLit closeLit wrap : Str) (t : Str) : Option (Str × Str) :=
  if startsL openLit t then
    match findLitW closeLit (t.drop openLit.length) with
    | some (g, after) => some (wrap ++ g ++ wrap, after)
    | none => none
  else none

def convert_text_formatting (s : Str) : Str :=
  rewriteAllW (mPair (strL "<s>") (strL "</s>") (strL "~~"))
    (rewriteAllW (mPair (strL "<del>") (strL "</del>") (strL "~~"))
      (rewriteAllW (mPair (strL "<i>") (strL "</i>") (strL "*"))
        (rewriteAllW (mPair (strL "<em>") (strL "</em>") (strL "*"))
          (rewriteAllW (mPair (strL "<b>") (strL "</b>") (strL "**"))
            (rewriteAllW (mPair (strL "<strong>") (strL "</strong>") (strL "**")) s)))))

/-!
## Pass 13: `_clean_html_entities`
-/

def clean_html_entities (s : Str) : Str := (unescapeL s).filter (· ≠ Char.ofNat 8203)

/-!
## Pass 14: `_cleanup_whitespace`
-/

def fence3 : Str := strL "```"

/-- Matcher for the split pattern `(```[\s\S]*?```)` (a lazy fence pair). -/
def fenceMatch (t : Str) : Option (Str × Str) :=
  if startsL fence3 t then
    match findLitW fence3 (t.drop 3) with
    | some (mid, rest) => some (fence3 ++ mid ++ fence3, rest)
    | none => none
  else none

/-- The `re.split` with a capture group: parts and separators, in order. -/
def splitFGo : Nat → Str → List Str
  | 0, s => [s]
  | _, [] => [[]]
  | fuel + 1, c :: cs =>
    match fenceMatch (c :: cs) with
    | some (m, rest) => [] :: m :: splitFGo fuel rest
    | none => consHead c (splitFGo fuel cs)

def splitFences (s : Str) : List Str := splitFGo s.length s

/-- Cleaning of a non-code part: strip tags, collapse newline runs, trim lines. -/
def cleanTextPart (p : Str) : Str :=
  joinSep ['\n'] ((splitNL (collapseNL (stripTags p))).map pyStrip)

def cleanup_whitespace (s : Str) : Str :=
  pyStrip (collapseNL (List.flatten ((splitFences s).map
    (fun p => if startsL fence3 p then p else cleanTextPart p))))

/-!
## `_generate_title`
-/

/-- Models `Path(filename).stem` for POSIX-style names: the last `/`-component
(after dropping trailing slashes), without its final extension; a leading dot
or a trailing dot is not an extension separator. -/
def pathStem (filename : Str) : Str :=
  let s1 := (filename.reverse.dropWhile (· = '/')).reverse
  let name := match (splitCh '/' s1).getLast? with | some n => n | none => []
  match rfindLit ['.'] name with
  | some i => if 0 < i ∧ i < name.length - 1 then name.take i else name
  | none => name

def acronyms : List Str := [strL "api", strL "pdf", strL "svg", strL "html", strL "css"]

/-- Python `str.capitalize()` (ASCII model): first character upper, rest lower. -/
def capitalizeW : Str → Str
  | [] => []
  | c :: cs => c.toUpper :: cs.map Char.toLower

def titleWord (w : Str) : Str :=
  if acronyms.contains (w.map Char.toLower) then w.map Char.toUpper else capitalizeW w

/-- Python `str.split()` with no argument: split on whitespace runs, no empties. -/
def pySplitGo : Str → Str → List Str
  | acc, [] => if acc.isEmpty then [] else [acc.reverse]
  | acc, c :: cs =>
    if isPySpace c then
      (if acc.isEmpty then pySplitGo [] cs else acc.reverse :: pySplitGo [] cs)
    else pySplitGo (c :: acc) cs

def pySplitWS (s : Str) : List Str := pySplitGo [] s

def generate_title (filename : Str) : Str :=
  let n1 := pathStem filename
  let n2 := n1.map (fun c => if c = '_' ∨ c = '-' then ' ' else c)
  let n3 := if startsCI (strL "api reference ") n2
            then strL "API Reference: " ++ n2.drop 14 else n2
  joinSep [' '] ((pySplitWS n3).map titleWord)

/-!
## The pipeline and `convert_file`
-/

def convertPipe (s : Str) : Str :=
  cleanup_whitespace (clean_html_entities (convert_text_formatting (convert_paragraphs
    (convert_lists (convert_links (convert_images (convert_tables (convert_custom_blocks
      (convert_headers (convert_inline_code (convert_code_blocks
        (remove_hidden_elements (extract_main_content s)))))))))))))

def convert_body (html : String) : String := String.mk (convertPipe html.data)

def convert_file (html filename : String) : String :=
  String.mk (strL "# " ++ generate_title filename.data ++ strL "\n\n" ++ (convert_body html).data)



/-!
## Definitions used by the theorem statements
-/

/-- Title synthesis as the specification states it (spec §4.12), written
independently as the comparison point for the refinement claim. -/
def titleSpec (filename : Str) : Str :=
  let stem := pathStem filename
  let spaced := stem.map (fun c => if c = '_' then ' ' else if c = '-' then ' ' else c)
  let rewritten :=
    if startsL (strL "api reference ") (spaced.map Char.toLower) then
      strL "API Reference: " ++ spaced.drop (strL "api reference ").length
    else spaced
  joinSep [' '] ((pySplitWS rewritten).map (fun w =>
    if (w.map Char.toLower) ∈ acronyms then w.map Char.toUpper else capitalizeW w))

/-- One highlighter line-container, as emitted by the Shiki highlighter. -/
def mkLineSpan (b : Str) : Str := strL "<span class=\"line\">" ++ b ++ strL "</span>"

/-- A highlighted code block (the text matched by the code-block container
pattern): language-tagged outer div, `pre`, `code`, newline-separated
line-spans. -/
def mkHighlightBlock (lang : Str) (bodies : List Str) : Str :=
  strL "<div class=\"language-" ++ lang ++ strL "\"><pre class=\"shiki\"><code>" ++
    joinSep ['\n'] (bodies.map mkLineSpan) ++ strL "</code></pre></div>"

/-- Number of pipe-delimited cells of a rendered Markdown table row. -/
def numCells (line : Str) : Nat := (splitCh '|' line).length - 2

/-- Every `\n`-separated line of `s` is already trimmed. -/
def linesTrimmedB (s : Str) : Bool := (splitNL s).all (fun l => pyStrip l == l)

/-- No run of three or more consecutive newlines. -/
def noTripleNL (s : Str) : Bool := !containsL (strL "\n\n\n") s

/-- No character of `s` lowercases to `c` (in particular `c ∉ s`). -/
def noCharCI (c : Char) (s : Str) : Bool := s.all (fun d => d.toLower != c)

/-- Every nonempty head of `t` lowercases to something other than `<`. -/
def headNotLt (t : Str) : Prop := ∀ d ds, t = d :: ds → d.toLower ≠ '<'

/-!
## Toolkit: prefixes, occurrences, scanners on concatenations
-/

theorem startsL_eq_isPrefixOf (l s : Str) : startsL l s = l.isPrefixOf s := by
  induction l generalizing s with
  | nil => cases s <;> rfl
  | cons a as ih =>
    cases s with
    | nil => rfl
    | cons b bs => simp [startsL, List.isPrefixOf, ih]

theorem startsL_iff (l s : Str) : startsL l s = true ↔ l <+: s := by
  rw [startsL_eq_isPrefixOf]; exact List.isPrefixOf_iff_prefix

theorem startsL_self_append (l r : Str) : startsL l (l ++ r) = true :=
  (startsL_iff l (l ++ r)).mpr ⟨r, rfl⟩

theorem startsL_cons_false {c d : Char} (l r : Str) (h : c ≠ d) :
    startsL (c :: l) (d :: r) = false := by
  simp [startsL, h]

theorem startsL_false_of_headNotMem {c : Char} {l t : Str} (h : c ∉ t) :
    startsL (c :: l) t = false := by
  cases t with
  | nil => rfl
  | cons d ds =>
    refine startsL_cons_false _ _ fun hcd => ?_
    exact h (hcd ▸ List.mem_cons_self d ds)

theorem startsCI_false_of {c : Char} {l t : Str} (h : ∀ d ∈ t, d.toLower ≠ c) :
    startsCI (c :: l) t = false := by
  cases t with
  | nil => rfl
  | cons d ds =>
    have : (c == d.toLower) = false :=
      beq_eq_false_iff_ne.mpr fun hc => h d (List.mem_cons_self d ds) hc.symm
    simp [startsCI, this]

theorem startsCI_self_of_lower {lit : Str} (h : ∀ c ∈ lit, c.toLower = c) (r : Str) :
    startsCI lit (lit ++ r) = true := by
  induction lit with
  | nil => rfl
  | cons a as ih =>
    have ha := h a (List.mem_cons_self a as)
    simp [startsCI, ha, ih fun c hc => h c (List.mem_cons_of_mem a hc)]

theorem notMem_of_noCharCI {c : Char} {s : Str} (h : noCharCI c s = true) (hc : c.toLower = c) :
    c ∉ s := by
  intro hmem
  have := (List.all_eq_true.mp h) c hmem
  simp [hc] at this

theorem noCharCI_all {c : Char} {s : Str} (h : noCharCI c s = true) :
    ∀ d ∈ s, d.toLower ≠ c := by
  intro d hd
  have := (List.all_eq_true.mp h) d hd
  simpa using this

/-- `findLit` walks over a prefix in which the literal never starts. -/
theorem findLit_skip (lit : Str) (a b : Str) (fuel : Nat)
    (h : ∀ a2, a2 ≠ [] → a2 <:+ a → startsL lit (a2 ++ b) = false) :
    findLit lit (a.length + fuel) (a ++ b) =
      (findLit lit fuel b).map (fun p => (a ++ p.1, p.2)) := by
  induction a with
  | nil =>
    simp only [List.nil_append, List.length_nil, Nat.zero_add]
    cases hfb : findLit lit fuel b with
    | none => simp
    | some p => cases p; simp
  | cons c a' ih =>
    have hfalse : startsL lit ((c :: a') ++ b) = false :=
      h (c :: a') (by simp) (List.suffix_refl _)
    have ih' := ih fun a2 hne hsuf => h a2 hne (hsuf.trans (List.suffix_cons c a'))
    simp only [List.cons_append, List.length_cons]
    rw [Nat.succ_add]
    simp only [findLit, List.cons_append] at hfalse ⊢
    rw [hfalse]
    simp only [ih']
    cases hfb : findLit lit fuel b with
    | none => simp
    | some p => cases p; simp

theorem findLit_at (lit a b : Str) (fuel : Nat)
    (h : ∀ a2, a2 ≠ [] → a2 <:+ a → startsL lit (a2 ++ (lit ++ b)) = false) :
    findLit lit (a.length + (fuel + 1)) (a ++ (lit ++ b)) = some (a, b) := by
  rw [findLit_skip lit a (lit ++ b) (fuel + 1) h]
  simp [findLit, startsL_self_append, List.drop_left]

theorem findLitW_at (lit a b : Str) (hlit : lit ≠ [])
    (h : ∀ a2, a2 ≠ [] → a2 <:+ a → startsL lit (a2 ++ (lit ++ b)) = false) :
    findLitW lit (a ++ (lit ++ b)) = some (a, b) := by
  have hlen : (a ++ (lit ++ b)).length = a.length + ((lit.length + b.length - 1) + 1) := by
    have : 1 ≤ lit.length := by
      cases lit with | nil => exact absurd rfl hlit | cons x xs => simp
    simp [List.length_append]; omega
  rw [findLitW, hlen]
  exact findLit_at lit a b _ h

theorem findLitW_at_head {c : Char} {lit' a b : Str} (hc : c ∉ a) :
    findLitW (c :: lit') (a ++ ((c :: lit') ++ b)) = some (a, b) := by
  refine findLitW_at _ _ _ (by simp) fun a2 hne hsuf => ?_
  cases a2 with
  | nil => exact absurd rfl hne
  | cons d t =>
    refine startsL_cons_false _ _ fun hcd => ?_
    exact hc (hcd ▸ hsuf.subset (List.mem_cons_self d t))

theorem findLit_none_head {c : Char} {lit' : Str} (s : Str) (h : c ∉ s) :
    ∀ fuel, findLit (c :: lit') fuel s = none := by
  intro fuel
  induction fuel generalizing s with
  | zero => rfl
  | succ f ih =>
    simp only [findLit, startsL_false_of_headNotMem h]
    cases s with
    | nil => simp
    | cons d ds =>
      simp only [Bool.false_eq_true, if_false]
      rw [ih ds fun hm => h (List.mem_cons_of_mem d hm)]

theorem findLitW_none_head {c : Char} {lit' : Str} (s : Str) (h : c ∉ s) :
    findLitW (c :: lit') s = none := findLit_none_head s h _

theorem containsL_false_head {c : Char} {lit' : Str} (s : Str) (h : c ∉ s) :
    containsL (c :: lit') s = false := by
  simp [containsL, findLitW_none_head s h]

theorem findLitCI_none {c : Char} {lit' : Str} (s : Str) (h : ∀ d ∈ s, d.toLower ≠ c) :
    ∀ fuel, findLitCI (c :: lit') fuel s = none := by
  intro fuel
  induction fuel generalizing s with
  | zero => rfl
  | succ f ih =>
    simp only [findLitCI, startsCI_false_of h]
    cases s with
    | nil => simp
    | cons d ds =>
      simp only [Bool.false_eq_true, if_false]
      rw [ih ds fun e he => h e (List.mem_cons_of_mem d he)]

theorem rewriteAll_id {m : Str → Option (Str × Str)} {s : Str}
    (h : ∀ t, t <:+ s → m t = none) : ∀ fuel, rewriteAll m fuel s = s := by
  intro fuel
  induction fuel generalizing s with
  | zero => cases s <;> rfl
  | succ f ih =>
    cases s with
    | nil => rfl
    | cons c cs =>
      simp only [rewriteAll, h (c :: cs) (List.suffix_refl _)]
      rw [ih fun t ht => h t (ht.trans (List.suffix_cons c cs))]

theorem rewriteAll_skip {m : Str → Option (Str × Str)} (x y : Str) (fuel : Nat)
    (h : ∀ x2, x2 ≠ [] → x2 <:+ x → m (x2 ++ y) = none) :
    rewriteAll m (x.length + fuel) (x ++ y) = x ++ rewriteAll m fuel y := by
  induction x with
  | nil => simp
  | cons c x' ih =>
    have hnone : m ((c :: x') ++ y) = none := h (c :: x') (by simp) (List.suffix_refl _)
    simp only [List.cons_append, List.length_cons]
    rw [Nat.succ_add]
    simp only [rewriteAll, List.cons_append] at hnone ⊢
    rw [hnone]
    rw [ih fun x2 hne hsuf => h x2 hne (hsuf.trans (List.suffix_cons c x'))]

theorem rewriteAll_step {m : Str → Option (Str × Str)} {c : Char} {cs rep rest : Str}
    (fuel : Nat) (hm : m (c :: cs) = some (rep, rest)) :
    rewriteAll m (fuel + 1) (c :: cs) = rep ++ rewriteAll m fuel rest := by
  simp [rewriteAll, hm]

theorem dropWhile_app_all (p : Char → Bool) (x y : Str) (h : ∀ c ∈ x, p c = true) :
    List.dropWhile p (x ++ y) = List.dropWhile p y := by
  induction x with
  | nil => rfl
  | cons c x' ih =>
    simp only [List.cons_append, List.dropWhile_cons, h c (List.mem_cons_self c x')]
    exact ih fun d hd => h d (List.mem_cons_of_mem c hd)

theorem takeWhile_app_all (p : Char → Bool) (x y : Str) (h : ∀ c ∈ x, p c = true) :
    List.takeWhile p (x ++ y) = x ++ List.takeWhile p y := by
  induction x with
  | nil => rfl
  | cons c x' ih =>
    simp only [List.cons_append, List.takeWhile_cons, h c (List.mem_cons_self c x')]
    simp [ih fun d hd => h d (List.mem_cons_of_mem c hd)]

theorem splitAtGt_at (body rest : Str) (h : '>' ∉ body) :
    splitAtGt (body ++ '>' :: rest) = some (body, rest) := by
  have hall : ∀ c ∈ body, (decide (c ≠ '>')) = true := by
    intro c hc; simp; exact fun he => h (he ▸ hc)
  rw [splitAtGt, dropWhile_app_all _ _ _ hall, takeWhile_app_all _ _ _ hall]
  simp [List.dropWhile, List.takeWhile]

theorem startsCI_eq_lower : ∀ (l t : Str), startsCI l t = startsL l (t.map Char.toLower)
  | [], t => by cases t <;> rfl
  | _ :: _, [] => rfl
  | a :: as, b :: bs => by simp [startsCI, startsL, startsCI_eq_lower as bs]

theorem generate_title_eq_titleSpec (f : Str) : generate_title f = titleSpec f := by
  have h1 : ∀ c : Char,
      (if c = '_' ∨ c = '-' then ' ' else c) =
        (if c = '_' then ' ' else if c = '-' then ' ' else c) := by
    intro c; by_cases hu : c = '_' <;> by_cases hh : c = '-' <;> simp [hu, hh]
  have h5 : titleWord = fun w : Str =>
      if (w.map Char.toLower) ∈ acronyms then w.map Char.toUpper else capitalizeW w := by
    funext w
    by_cases hm : (w.map Char.toLower) ∈ acronyms
    · simp [titleWord, List.elem_iff.mpr hm, hm]
    · have hc : acronyms.contains (w.map Char.toLower) = false := by
        rcases hcon : acronyms.contains (w.map Char.toLower) with _ | _
        · rfl
        · exact absurd (List.elem_iff.mp hcon) hm
      simp [titleWord, hc, hm]
  have h4 : List.length (strL "api reference ") = 14 := by decide
  unfold generate_title titleSpec
  simp only [h1, h4, startsCI_eq_lower, h5]

/-- C8: title synthesis removes the extension, replaces underscores and hyphens
with spaces, rewrites a leading case-insensitive "api reference " prefix to
"API Reference: ", and title-cases the remaining words with the fixed acronym
set rendered upper-case; in particular the two example filenames map to
"API Reference: Fonts" and "Getting Started". -/
theorem title_synthesis_correct :
    (∀ f : Str, generate_title f = titleSpec f) ∧
    generate_title (strL "api_reference_fonts.html") = strL "API Reference: Fonts" ∧
    generate_title (strL "getting-started.html") = strL "Getting Started" :=
  ⟨generate_title_eq_titleSpec, by decide, by decide⟩

/-- C1: `convert_file` is a total function of the two input strings; for every
input it returns the Markdown string made of the synthesized title prefix and
the converted body (no error case exists). -/
theorem convert_file_total (d n : String) :
    convert_file d n =
      String.mk (strL "# " ++ generate_title n.data ++ strL "\n\n" ++ (convert_body d).data) :=
  rfl

/-- C2: the source name influences only the synthesized title line: for any two
source names the results share the identical converted body after the title
prefix. -/
theorem source_name_title_only (d n₁ n₂ : String) :
    ∃ body : String,
      convert_file d n₁ = String.mk (strL "# " ++ generate_title n₁.data ++ strL "\n\n" ++ body.data) ∧
      convert_file d n₂ = String.mk (strL "# " ++ generate_title n₂.data ++ strL "\n\n" ++ body.data) :=
  ⟨convert_body d, rfl, rfl⟩

/-- C9: the end-to-end example: one `<h2>Setup</h2>`, one paragraph, one
highlighted block with two line-spans tagged `language-csharp`, converted with
filename `setup.html`. -/
theorem convert_end_to_end :
    convert_file "<h2>Setup</h2><p>Install it.</p><div class=\"language-csharp\"><pre class=\"shiki\"><code><span class=\"line\">foo();</span>\n<span class=\"line\">bar();</span></code></pre></div>" "setup.html"
      = "# Setup\n\n## Setup\n\nInstall it.\n\n```csharp\nfoo();\nbar();\n```" := by decide

/-- C3 counterexample: a highlighted block with two line-spans whose second is
empty is emitted as a fence containing a single line (the final `strip()`
removes the trailing empty line), so the line count is 1, not N = 2. -/
theorem code_lines_cex :
    findallLineSpans (strL "<span class=\"line\">foo();</span>\n<span class=\"line\"></span>") =
      [strL "foo();", []] ∧
    extract_code_from_pre (mkHighlightBlock (strL "csharp") [strL "foo();", []]) =
      strL "\n```csharp\nfoo();\n```\n" ∧
    splitNL (strL "foo();") = [strL "foo();"] :=
  ⟨by decide, by decide, by decide⟩

/-- C4 counterexample: a table with one header cell and a data row of two cells
emits the data row with two pipe-delimited cells — rows wider than the header
are not truncated, so a row's width can exceed the header width. -/
theorem table_pad_cex :
    convert_table (strL "<table><thead><tr><th>h</th></tr></thead><tbody><tr><td>a</td><td>b</td></tr></tbody></table>")
      = strL "\n| h |\n| --- |\n| a | b |\n" ∧
    numCells (strL "| a | b |") = 2 ∧ numCells (strL "| h |") = 1 :=
  ⟨by decide, by decide, by decide⟩

/-- C5 counterexample: a hidden container with a nested `<div>` is truncated at
the first `</div>` (the lazy `.*?</div>`), so content of the hidden element
(`AFTER`) survives — deletion is not wholesale. -/
theorem remove_hidden_cex :
    remove_hidden_elements (strL "<div aria-hidden=\"true\"><div>inner</div>AFTER</div>")
      = strL "AFTER</div>" := by decide

/-- C6 counterexample: re-running the converter on its own output prepends a
second synthesized title line, so the result is not structurally equal to the
first output. -/
theorem convert_idem_cex :
    convert_file (convert_file "hello" "setup.html") "setup.html" = "# Setup\n\n# Setup\n\nhello" ∧
    convert_file "hello" "setup.html" = "# Setup\n\nhello" ∧
    ("# Setup\n\n# Setup\n\nhello" : String) ≠ "# Setup\n\nhello" :=
  ⟨by decide, by decide, by decide⟩

/-- C7 counterexample: the final global `\n{3,}` collapse of the whitespace
cleanup also applies inside fenced code: a fence interior containing four
consecutive newlines is rewritten, so the original fence no longer occurs in
the output. -/
theorem cleanup_fence_cex :
    cleanup_whitespace (strL "a\n\n```\nx\n\n\n\ny\n```\nb") = strL "a\n\n```\nx\n\ny\n```\nb" ∧
    containsL (strL "```\nx\n\n\n\ny\n```") (strL "a\n\n```\nx\n\ny\n```\nb") = false :=
  ⟨by decide, by decide⟩

/-!
## C4: table row widths
-/

theorem splitCh_ne_nil (sep : Char) (s : Str) : splitCh sep s ≠ [] := by
  cases s with
  | nil => simp [splitCh]
  | cons c cs =>
    by_cases h : c = sep
    · simp [splitCh, h]
    · simp only [splitCh, h, if_false]
      rcases hs : splitCh sep cs with _ | ⟨l, ls⟩
      · simp
      · simp

theorem splitCh_app_nosep (sep : Char) (x y : Str) (h : sep ∉ x) (p : Str) (ps : List Str)
    (hy : splitCh sep y = p :: ps) : splitCh sep (x ++ y) = (x ++ p) :: ps := by
  induction x with
  | nil => simpa using hy
  | cons c x' ih =>
    have hc : ¬ c = sep := fun he => h (he ▸ List.mem_cons_self c x')
    have ih' := ih fun hm => h (List.mem_cons_of_mem c hm)
    simp [splitCh, hc, ih']

theorem splitCh_cons_sep (sep : Char) (y : Str) :
    splitCh sep (sep :: y) = [] :: splitCh sep y := by
  simp [splitCh]

/-- Splitting a rendered row's tail `" a | b | … |"` at the pipes. -/
theorem splitCh_rowTail (cells : List Str) (hne : cells ≠ [])
    (hp : ∀ x ∈ cells, '|' ∉ x) :
    splitCh '|' (' ' :: (joinSep (strL " | ") cells ++ [' ', '|'])) =
      cells.map (fun x => ' ' :: (x ++ [' '])) ++ [[]] := by
  induction cells with
  | nil => exact absurd rfl hne
  | cons a t ih =>
    cases t with
    | nil =>
      have hx : '|' ∉ ' ' :: (a ++ [' ']) := by
        intro hm
        rcases List.mem_cons.mp hm with h1 | h2
        · exact absurd h1.symm (by decide)
        · rcases List.mem_append.mp h2 with h3 | h4
          · exact hp a (List.mem_cons_self a []) h3
          · simp at h4
      have hsp : splitCh '|' ['|'] = [] :: [[]] := by decide
      have := splitCh_app_nosep '|' (' ' :: (a ++ [' '])) ['|'] hx [] [[]] hsp
      simp only [joinSep]
      have harr : ' ' :: (a ++ [' ', '|']) = (' ' :: (a ++ [' '])) ++ ['|'] := by simp
      rw [harr, this]
      simp
    | cons b t' =>
      have hx : '|' ∉ ' ' :: (a ++ [' ']) := by
        intro hm
        rcases List.mem_cons.mp hm with h1 | h2
        · exact absurd h1.symm (by decide)
        · rcases List.mem_append.mp h2 with h3 | h4
          · exact hp a (List.mem_cons_self a _) h3
          · simp at h4
      have ih' := ih (by simp) fun x hx2 => hp x (List.mem_cons_of_mem a hx2)
      have harr : ' ' :: (joinSep (strL " | ") (a :: b :: t') ++ [' ', '|']) =
          (' ' :: (a ++ [' '])) ++ ('|' :: (' ' :: (joinSep (strL " | ") (b :: t') ++ [' ', '|']))) := by
        simp [joinSep, strL]
      rw [harr, splitCh_app_nosep '|' _ _ hx _ _ (by rw [splitCh_cons_sep, ih'])]
      simp

theorem numCells_mkRowLine (cells : List Str) (hne : cells ≠ [])
    (hp : ∀ x ∈ cells, '|' ∉ x) :
    numCells (mkRowLine cells) = cells.length := by
  have harr : mkRowLine cells =
      '|' :: (' ' :: (joinSep (strL " | ") cells ++ [' ', '|'])) := by
    simp [mkRowLine, strL]
  rw [numCells, harr, splitCh_cons_sep, splitCh_rowTail cells hne hp]
  simp

/-- C4 (amended): a data row with at most H cells is emitted with exactly H
pipe-delimited cells (short rows are padded with empty cells), but a row with
more than H cells keeps all its cells: the emitted width is max H (row length),
which can exceed the header width. -/
theorem table_row_width (headers : List Str) (rows : List (List Str)) (row : List Str)
    (hH : headers ≠ []) (hmem : row ∈ rows) (hp : ∀ cell ∈ row, '|' ∉ cell) :
    mkRowLine (padRow headers.length row) ∈ buildTableLines headers rows ∧
    numCells (mkRowLine (padRow headers.length row)) = max headers.length row.length := by
  constructor
  · exact List.mem_append_right _ (List.mem_map_of_mem _ hmem)
  · have hlen : (padRow headers.length row).length = max headers.length row.length := by
      simp [padRow]; omega
    have hne : padRow headers.length row ≠ [] := by
      have hH1 : 1 ≤ headers.length := by
        cases headers with
        | nil => exact absurd rfl hH
        | cons a t => simp
      intro h0
      have h1 := congrArg List.length h0
      rw [hlen] at h1
      simp only [List.length_nil] at h1
      have h2 := Nat.le_max_left headers.length row.length
      omega
    have hp' : ∀ x ∈ padRow headers.length row, '|' ∉ x := by
      intro x hx
      rcases List.mem_append.mp hx with h1 | h2
      · exact hp x h1
      · have := List.eq_of_mem_replicate h2
        subst this; simp
    rw [numCells_mkRowLine _ hne hp', hlen]

theorem table_row_width_witness :
    mkRowLine (padRow (List.length [strL "h"]) [strL "a"]) ∈
      buildTableLines [strL "h"] [[strL "a"]] ∧
    numCells (mkRowLine (padRow (List.length [strL "h"]) [strL "a"])) =
      max (List.length [strL "h"]) (List.length [strL "a"]) :=
  table_row_width [strL "h"] [[strL "a"]] [strL "a"] (by decide) (by decide) (by decide)

/-!
## C10: image alt handling
-/

theorem findLitW_at_lit (lit a b : Str) (c : Char) (hhead : lit.head? = some c) (hc : c ∉ a) :
    findLitW lit (a ++ (lit ++ b)) = some (a, b) := by
  cases lit with
  | nil => simp at hhead
  | cons d l' =>
    have hdc : d = c := by simpa using hhead
    subst hdc
    exact findLitW_at_head hc

theorem findLitW_none_lit (lit s : Str) (c : Char) (hhead : lit.head? = some c) (hc : c ∉ s) :
    findLitW lit s = none := by
  cases lit with
  | nil => simp at hhead
  | cons d l' =>
    have hdc : d = c := by simpa using hhead
    subst hdc
    exact findLitW_none_head s hc

theorem takeWhile_nq_app (v rest : Str) (hv : '"' ∉ v) :
    (v ++ '"' :: rest).takeWhile (· ≠ '"') = v ∧
    (v ++ '"' :: rest).dropWhile (· ≠ '"') = '"' :: rest := by
  have hall : ∀ c ∈ v, (decide (c ≠ '"')) = true := by
    intro c hcm; simp; exact fun he => hv (he ▸ hcm)
  constructor
  · rw [takeWhile_app_all _ _ _ hall]; simp [List.takeWhile]
  · rw [dropWhile_app_all _ _ _ hall]; simp [List.dropWhile]

theorem searchAttrGo_found (lit : Str) (ae : Bool) (fuel : Nat) (s a v rest2 : Str)
    (hfind : findLitW lit s = some (a, v ++ '"' :: rest2)) (hv : '"' ∉ v)
    (hne : ae = true ∨ v ≠ []) :
    searchAttrGo lit ae (fuel + 1) s = some v := by
  obtain ⟨ht, hd⟩ := takeWhile_nq_app v rest2 hv
  simp only [searchAttrGo, hfind, ht, hd]
  rcases hne with hae | hvne
  · subst hae; simp
  · have : v.isEmpty = false := by
      cases v with
      | nil => exact absurd rfl hvne
      | cons x xs => rfl
    simp [this]

theorem searchAttr_found (lit : Str) (ae : Bool) (s a v rest2 : Str)
    (hfind : findLitW lit s = some (a, v ++ '"' :: rest2)) (hv : '"' ∉ v)
    (hne : ae = true ∨ v ≠ []) :
    searchAttrGo lit ae s.length s = some v := by
  have h1 : s ≠ [] := by
    intro h0
    rw [h0] at hfind
    simp [findLitW, findLit] at hfind
  obtain ⟨k, hk⟩ : ∃ k, s.length = k + 1 := by
    cases s with
    | nil => exact absurd rfl h1
    | cons c cs => exact ⟨cs.length, rfl⟩
  rw [hk]
  exact searchAttrGo_found lit ae k s a v rest2 hfind hv hne

theorem searchAttrGo_none (lit s : Str) (ae : Bool) (c : Char) (hhead : lit.head? = some c)
    (hc : c ∉ s) : ∀ fuel, searchAttrGo lit ae fuel s = none := by
  intro fuel
  cases fuel with
  | zero => rfl
  | succ f => simp [searchAttrGo, findLitW_none_lit lit s c hhead hc]

/-- C10: an image tag with a `src` and an empty `alt=""` attribute is emitted
with empty alt text, and an explicit alt value is always used verbatim; the
default alt text "image" is used exactly when the `alt` attribute is absent. -/
theorem image_alt_semantics (pre mid v src : Str)
    (hpre : '"' ∉ pre) (hmid : '"' ∉ mid) (hv : '"' ∉ v) (hsrc : '"' ∉ src)
    (hpreS : 's' ∉ pre) (hpreA : 'a' ∉ pre) (hmidA : 'a' ∉ mid) (hsrcA : 'a' ∉ src)
    (hsrcE : src ≠ []) :
    convert_image (strL "<img " ++ pre ++ strL "src=\"" ++ src ++ ['"'] ++ mid ++
        strL "alt=\"" ++ v ++ ['"'] ++ strL ">")
      = strL "\n![" ++ v ++ strL "](" ++ src ++ strL ")\n" ∧
    convert_image (strL "<img " ++ pre ++ strL "src=\"" ++ src ++ ['"'] ++ mid ++ strL ">")
      = strL "\n![image](" ++ src ++ strL ")\n" := by
  have hsrcHead : (strL "src=\"").head? = some 's' := rfl
  have haltHead : (strL "alt=\"").head? = some 'a' := rfl
  have hPreNoS : 's' ∉ strL "<img " ++ pre := by
    intro hm
    rcases List.mem_append.mp hm with h1 | h2
    · simp [strL] at h1
    · exact hpreS h2
  constructor
  · -- alt present
    have e1 : strL "<img " ++ pre ++ strL "src=\"" ++ src ++ ['"'] ++ mid ++
        strL "alt=\"" ++ v ++ ['"'] ++ strL ">" =
        (strL "<img " ++ pre) ++ (strL "src=\"" ++
          (src ++ '"' :: (mid ++ strL "alt=\"" ++ v ++ ['"'] ++ strL ">"))) := by
      simp [List.append_assoc]
    have hfindS : findLitW (strL "src=\"")
        ((strL "<img " ++ pre) ++ (strL "src=\"" ++
          (src ++ '"' :: (mid ++ strL "alt=\"" ++ v ++ ['"'] ++ strL ">")))) =
        some (strL "<img " ++ pre, src ++ '"' :: (mid ++ strL "alt=\"" ++ v ++ ['"'] ++ strL ">")) :=
      findLitW_at_lit _ _ _ 's' hsrcHead hPreNoS
    have hS : searchAttrNonempty (strL "src=\"")
        ((strL "<img " ++ pre) ++ (strL "src=\"" ++
          (src ++ '"' :: (mid ++ strL "alt=\"" ++ v ++ ['"'] ++ strL ">")))) = some src := by
      rw [searchAttrNonempty]
      exact searchAttr_found _ _ _ _ _ _ hfindS hsrc (Or.inr hsrcE)
    have e2 : (strL "<img " ++ pre) ++ (strL "src=\"" ++
          (src ++ '"' :: (mid ++ strL "alt=\"" ++ v ++ ['"'] ++ strL ">"))) =
        (strL "<img " ++ pre ++ strL "src=\"" ++ src ++ ['"'] ++ mid) ++
          (strL "alt=\"" ++ (v ++ '"' :: strL ">")) := by
      simp [List.append_assoc]
    have hANoA : 'a' ∉ strL "<img " ++ pre ++ strL "src=\"" ++ src ++ ['"'] ++ mid := by
      intro hm
      simp only [List.mem_append] at hm
      rcases hm with ((((h1 | h2) | h3) | h4) | h5) | h6
      · simp [strL] at h1
      · exact hpreA h2
      · simp [strL] at h3
      · exact hsrcA h4
      · simp at h5
      · exact hmidA h6
    have hfindA : findLitW (strL "alt=\"")
        ((strL "<img " ++ pre ++ strL "src=\"" ++ src ++ ['"'] ++ mid) ++
          (strL "alt=\"" ++ (v ++ '"' :: strL ">"))) =
        some (strL "<img " ++ pre ++ strL "src=\"" ++ src ++ ['"'] ++ mid, v ++ '"' :: strL ">") :=
      findLitW_at_lit _ _ _ 'a' haltHead hANoA
    have hA : searchAttrAny (strL "alt=\"")
        ((strL "<img " ++ pre ++ strL "src=\"" ++ src ++ ['"'] ++ mid) ++
          (strL "alt=\"" ++ (v ++ '"' :: strL ">"))) = some v := by
      rw [searchAttrAny]
      exact searchAttr_found _ _ _ _ _ _ (by rw [← e2]; exact (e2 ▸ hfindA)) hv (Or.inl rfl)
    have hsrcNE : src.isEmpty = false := by
      cases src with
      | nil => exact absurd rfl hsrcE
      | cons x xs => rfl
    rw [e1, convert_image]
    rw [← e2] at hA
    rw [hS, hA]
    simp [hsrcNE, List.append_assoc]
  · -- alt absent
    have e1 : strL "<img " ++ pre ++ strL "src=\"" ++ src ++ ['"'] ++ mid ++ strL ">" =
        (strL "<img " ++ pre) ++ (strL "src=\"" ++ (src ++ '"' :: (mid ++ strL ">"))) := by
      simp [List.append_assoc]
    have hfindS : findLitW (strL "src=\"")
        ((strL "<img " ++ pre) ++ (strL "src=\"" ++ (src ++ '"' :: (mid ++ strL ">")))) =
        some (strL "<img " ++ pre, src ++ '"' :: (mid ++ strL ">")) :=
      findLitW_at_lit _ _ _ 's' hsrcHead hPreNoS
    have hS : searchAttrNonempty (strL "src=\"")
        ((strL "<img " ++ pre) ++ (strL "src=\"" ++ (src ++ '"' :: (mid ++ strL ">")))) = some src := by
      rw [searchAttrNonempty]
      exact searchAttr_found _ _ _ _ _ _ hfindS hsrc (Or.inr hsrcE)
    have hNoA : 'a' ∉ (strL "<img " ++ pre) ++ (strL "src=\"" ++ (src ++ '"' :: (mid ++ strL ">"))) := by
      intro hm
      simp only [List.mem_append, List.mem_cons] at hm
      rcases hm with (h1 | h2) | (h3 | (h4 | (h5 | (h6 | h7))))
      · simp [strL] at h1
      · exact hpreA h2
      · simp [strL] at h3
      · exact hsrcA h4
      · simp at h5
      · exact hmidA h6
      · simp [strL] at h7
    have hA : searchAttrAny (strL "alt=\"")
        ((strL "<img " ++ pre) ++ (strL "src=\"" ++ (src ++ '"' :: (mid ++ strL ">")))) = none := by
      rw [searchAttrAny]
      exact searchAttrGo_none _ _ _ 'a' haltHead hNoA _
    have hsrcNE : src.isEmpty = false := by
      cases src with
      | nil => exact absurd rfl hsrcE
      | cons x xs => rfl
    rw [e1, convert_image, hS, hA]
    simp only [hsrcNE, Bool.false_eq_true, if_false, List.append_assoc]
    rfl

theorem image_alt_semantics_witness :
    ('"' ∉ ([] : Str)) ∧ (strL "x.png" ≠ []) ∧
    convert_image (strL "<img " ++ [] ++ strL "src=\"" ++ strL "x.png" ++ ['"'] ++ [' '] ++
        strL "alt=\"" ++ [] ++ ['"'] ++ strL ">")
      = strL "\n![" ++ [] ++ strL "](" ++ strL "x.png" ++ strL ")\n" ∧
    convert_image (strL "<img " ++ [] ++ strL "src=\"" ++ strL "x.png" ++ ['"'] ++ [' '] ++ strL ">")
      = strL "\n![image](" ++ strL "x.png" ++ strL ")\n" := by
  refine ⟨by decide, by decide, ?_, ?_⟩
  · exact (image_alt_semantics [] [' '] [] (strL "x.png") (by decide) (by decide) (by decide)
      (by decide) (by decide) (by decide) (by decide) (by decide) (by decide)).1
  · exact (image_alt_semantics [] [' '] [] (strL "x.png") (by decide) (by decide) (by decide)
      (by decide) (by decide) (by decide) (by decide) (by decide) (by decide)).2

/-!
## C5: noise removal
-/

theorem rewriteAll_nil (m : Str → Option (Str × Str)) : ∀ fuel, rewriteAll m fuel [] = [] := by
  intro fuel; cases fuel <;> rfl

theorem startsCI_cons_head_false {c d : Char} (l ds : Str) (h : (c == d.toLower) = false) :
    startsCI (c :: l) (d :: ds) = false := by
  simp [startsCI, h]

theorem startsCI_cons2_false {c1 c2 d1 d2 : Char} (l ds : Str) (h : (c2 == d2.toLower) = false) :
    startsCI (c1 :: c2 :: l) (d1 :: d2 :: ds) = false := by
  simp [startsCI, h]

theorem startsL_cons2_false {c1 c2 d1 d2 : Char} (l ds : Str) (h : (c2 == d2) = false) :
    startsL (c1 :: c2 :: l) (d1 :: d2 :: ds) = false := by
  simp [startsL, h]

theorem findLitCI_skip (lit : Str) (a b : Str) (fuel : Nat)
    (h : ∀ a2, a2 ≠ [] → a2 <:+ a → startsCI lit (a2 ++ b) = false) :
    findLitCI lit (a.length + fuel) (a ++ b) =
      (findLitCI lit fuel b).map (fun p => (a ++ p.1, p.2)) := by
  induction a with
  | nil =>
    simp only [List.nil_append, List.length_nil, Nat.zero_add]
    cases hfb : findLitCI lit fuel b with
    | none => simp
    | some p => cases p; simp
  | cons c a' ih =>
    have hfalse : startsCI lit ((c :: a') ++ b) = false :=
      h (c :: a') (by simp) (List.suffix_refl _)
    have ih' := ih fun a2 hne hsuf => h a2 hne (hsuf.trans (List.suffix_cons c a'))
    simp only [List.cons_append, List.length_cons]
    rw [Nat.succ_add]
    simp only [findLitCI, List.cons_append] at hfalse ⊢
    rw [hfalse]
    simp only [ih']
    cases hfb : findLitCI lit fuel b with
    | none => simp
    | some p => cases p; simp

theorem findLitCIW_at (lit a b : Str) (hlit : lit ≠ []) (hlow : ∀ c ∈ lit, c.toLower = c)
    (h : ∀ a2, a2 ≠ [] → a2 <:+ a → startsCI lit (a2 ++ (lit ++ b)) = false) :
    findLitCIW lit (a ++ (lit ++ b)) = some (a, b) := by
  have hlen : (a ++ (lit ++ b)).length = a.length + ((lit.length + b.length - 1) + 1) := by
    have : 1 ≤ lit.length := by
      cases lit with | nil => exact absurd rfl hlit | cons x xs => simp
    simp [List.length_append]; omega
  rw [findLitCIW, hlen, findLitCI_skip lit a (lit ++ b) _ h]
  simp [findLitCI, startsCI_self_of_lower hlow, List.drop_left]

theorem findLitCIW_at_headCI {c : Char} {lit' a b : Str} (hlow : ∀ d ∈ (c :: lit'), d.toLower = d)
    (hc : ∀ d ∈ a, d.toLower ≠ c) :
    findLitCIW (c :: lit') (a ++ ((c :: lit') ++ b)) = some (a, b) := by
  refine findLitCIW_at _ _ _ (by simp) hlow fun a2 hne hsuf => ?_
  cases a2 with
  | nil => exact absurd rfl hne
  | cons d t =>
    refine startsCI_cons_head_false _ _ (beq_eq_false_iff_ne.mpr fun hcd => ?_)
    exact hc d (hsuf.subset (List.mem_cons_self d t)) hcd.symm

theorem suffix_append_cases {t x y : Str} (h : t <:+ x ++ y) :
    t <:+ y ∨ ∃ x2, x2 <:+ x ∧ x2 ≠ [] ∧ t = x2 ++ y := by
  induction x with
  | nil => exact Or.inl (by simpa using h)
  | cons c x' ih =>
    rcases List.suffix_cons_iff.mp h with h1 | h2
    · exact Or.inr ⟨c :: x', List.suffix_refl _, by simp, by simpa using h1⟩
    · rcases ih h2 with h3 | ⟨x2, hs, hne, rfl⟩
      · exact Or.inl h3
      · exact Or.inr ⟨x2, hs.trans (List.suffix_cons c x'), hne, rfl⟩

theorem mHiddenDiv_none {t : Str} (h : startsCI (strL "<div") t = false) : mHiddenDiv t = none := by
  simp [mHiddenDiv, h]

theorem mCopyButton_none {t : Str} (h : startsL (strL "<button") t = false) : mCopyButton t = none := by
  simp [mCopyButton, h]

theorem mHeaderAnchor_none {t : Str} (h : startsL (strL "<a") t = false) : mHeaderAnchor t = none := by
  simp [mHeaderAnchor, h]

/-- None of the three noise matchers fires anywhere in `<p>` + tag-free text + `</p>`. -/
theorem noise_matchers_silent (a : Str) (ha : noCharCI '<' a = true) :
    ∀ t, t <:+ strL "<p>" ++ (a ++ strL "</p>") →
      mHiddenDiv t = none ∧ mCopyButton t = none ∧ mHeaderAnchor t = none := by
  have haL := noCharCI_all ha
  intro t ht
  rcases suffix_append_cases ht with hy | ⟨x2, hs, hne, rfl⟩
  · rcases suffix_append_cases hy with hl2 | ⟨a2, hsa, hnea, rfl⟩
    · -- t is a suffix of the concrete "</p>"
      rcases List.suffix_cons_iff.mp hl2 with rfl | h2
      · exact ⟨by decide, by decide, by decide⟩
      rcases List.suffix_cons_iff.mp h2 with rfl | h3
      · exact ⟨by decide, by decide, by decide⟩
      rcases List.suffix_cons_iff.mp h3 with rfl | h4
      · exact ⟨by decide, by decide, by decide⟩
      rcases List.suffix_cons_iff.mp h4 with rfl | h5
      · exact ⟨by decide, by decide, by decide⟩
      · have : t = [] := by simpa using h5
        subst this
        exact ⟨by decide, by decide, by decide⟩
    · -- t starts inside `a`
      cases a2 with
      | nil => exact absurd rfl hnea
      | cons d ds =>
        have hd : d ∈ a := hsa.subset (List.mem_cons_self d ds)
        have hdl : d.toLower ≠ '<' := haL d hd
        have hdne : d ≠ '<' := fun he => hdl (by rw [he]; decide)
        refine ⟨mHiddenDiv_none ?_, mCopyButton_none ?_, mHeaderAnchor_none ?_⟩
        · exact startsCI_cons_head_false _ _ (beq_eq_false_iff_ne.mpr fun hc => hdl hc.symm)
        · exact startsL_cons_false _ _ (Ne.symm hdne)
        · exact startsL_cons_false _ _ (Ne.symm hdne)
  · -- t starts inside the concrete "<p>"
    rcases List.suffix_cons_iff.mp hs with rfl | h2
    · refine ⟨mHiddenDiv_none ?_, mCopyButton_none ?_, mHeaderAnchor_none ?_⟩
      · exact startsCI_cons2_false _ _ (by decide)
      · exact startsL_cons2_false _ _ (by decide)
      · exact startsL_cons2_false _ _ (by decide)
    rcases List.suffix_cons_iff.mp h2 with rfl | h3
    · refine ⟨mHiddenDiv_none ?_, mCopyButton_none ?_, mHeaderAnchor_none ?_⟩
      · exact startsCI_cons_head_false _ _ (by decide)
      · exact startsL_cons_false _ _ (by decide)
      · exact startsL_cons_false _ _ (by decide)
    rcases List.suffix_cons_iff.mp h3 with rfl | h4
    · refine ⟨mHiddenDiv_none ?_, mCopyButton_none ?_, mHeaderAnchor_none ?_⟩
      · exact startsCI_cons_head_false _ _ (by decide)
      · exact startsL_cons_false _ _ (by decide)
      · exact startsL_cons_false _ _ (by decide)
    · have : x2 = [] := by simpa using h4
      exact absurd this hne

/-- C5 (amended): a container marked hidden is deleted together with its whole
content when the content contains no nested closing `</div>` (here: tag-free
content, and content with non-div markup); unrelated elements that merely
contain similar text are left untouched.  (Deletion extends only to the first
`</div>`, as the counterexample shows.) -/
theorem remove_hidden_amended (a b : Str)
    (ha : noCharCI '<' a = true) (hb : noCharCI '<' b = true) :
    remove_hidden_elements (strL "<div aria-hidden=\"true\">" ++ b ++ strL "</div>") = [] ∧
    remove_hidden_elements (strL "<p>" ++ a ++ strL "</p>") = strL "<p>" ++ a ++ strL "</p>" ∧
    remove_hidden_elements (strL "<div aria-hidden=\"true\"><i>x</i>y</div>") = [] := by
  refine ⟨?_, ?_, by decide⟩
  · -- wholesale deletion of the hidden container
    have hDsplit : strL "<div aria-hidden=\"true\">" ++ b ++ strL "</div>" =
        strL "<div" ++ (strL " aria-hidden=\"true\"" ++ ('>' :: (b ++ strL "</div>"))) := by
      simp [strL, List.append_assoc]
    have hg : startsCI (strL "<div") (strL "<div aria-hidden=\"true\">" ++ b ++ strL "</div>") = true := by
      rw [hDsplit]; exact startsCI_self_of_lower (by decide) _
    have hdrop : (strL "<div aria-hidden=\"true\">" ++ b ++ strL "</div>").drop 4 =
        strL " aria-hidden=\"true\"" ++ ('>' :: (b ++ strL "</div>")) := by
      rw [hDsplit]; rfl
    have hsplit : splitAtGt ((strL "<div aria-hidden=\"true\">" ++ b ++ strL "</div>").drop 4) =
        some (strL " aria-hidden=\"true\"", b ++ strL "</div>") := by
      rw [hdrop]; exact splitAtGt_at _ _ (by decide)
    have hfind : findLitCIW (strL "</div>") (b ++ strL "</div>") = some (b, []) := by
      have he : b ++ strL "</div>" = b ++ (('<' :: strL "/div>") ++ []) := by simp [strL]
      rw [he]
      exact findLitCIW_at_headCI (by decide) (noCharCI_all hb)
    have hm : mHiddenDiv (strL "<div aria-hidden=\"true\">" ++ b ++ strL "</div>") = some ([], []) := by
      simp only [mHiddenDiv, hg, if_true, hsplit, hfind]
      decide
    have hddef : strL "<div aria-hidden=\"true\">" ++ b ++ strL "</div>" =
        '<' :: (strL "div aria-hidden=\"true\">" ++ b ++ strL "</div>") := by
      simp [strL]
    have h1 : rewriteAllW mHiddenDiv (strL "<div aria-hidden=\"true\">" ++ b ++ strL "</div>") = [] := by
      rw [rewriteAllW, hddef]
      rw [show ('<' :: (strL "div aria-hidden=\"true\">" ++ b ++ strL "</div>")).length
            = (strL "div aria-hidden=\"true\">" ++ b ++ strL "</div>").length + 1 from rfl]
      rw [rewriteAll_step _ (hddef ▸ hm)]
      simp [rewriteAll_nil]
    rw [remove_hidden_elements, h1]
    rfl
  · -- unrelated element preserved
    have hassoc : strL "<p>" ++ a ++ strL "</p>" = strL "<p>" ++ (a ++ strL "</p>") :=
      List.append_assoc _ _ _
    have hsil := noise_matchers_silent a ha
    have p1 : rewriteAllW mHiddenDiv (strL "<p>" ++ (a ++ strL "</p>")) =
        strL "<p>" ++ (a ++ strL "</p>") :=
      rewriteAll_id (fun t ht => (hsil t ht).1) _
    have p2 : rewriteAllW mCopyButton (strL "<p>" ++ (a ++ strL "</p>")) =
        strL "<p>" ++ (a ++ strL "</p>") :=
      rewriteAll_id (fun t ht => (hsil t ht).2.1) _
    have p3 : rewriteAllW mHeaderAnchor (strL "<p>" ++ (a ++ strL "</p>")) =
        strL "<p>" ++ (a ++ strL "</p>") :=
      rewriteAll_id (fun t ht => (hsil t ht).2.2) _
    rw [remove_hidden_elements, hassoc, p1, p2, p3]

theorem remove_hidden_amended_witness :
    remove_hidden_elements (strL "<div aria-hidden=\"true\">" ++ strL "secret hint" ++ strL "</div>") = [] ∧
    remove_hidden_elements (strL "<p>" ++ strL "aria-hidden=\"true\" as text" ++ strL "</p>") =
      strL "<p>" ++ strL "aria-hidden=\"true\" as text" ++ strL "</p>" ∧
    remove_hidden_elements (strL "<div aria-hidden=\"true\"><i>x</i>y</div>") = [] :=
  remove_hidden_amended (strL "aria-hidden=\"true\" as text") (strL "secret hint")
    (by decide) (by decide)

/-!
## C3: line-span reconstruction
-/

theorem takeWhile_all (p : Char → Bool) (x : Str) (h : ∀ c ∈ x, p c = true) :
    x.takeWhile p = x ∧ x.dropWhile p = [] := by
  induction x with
  | nil => exact ⟨rfl, rfl⟩
  | cons c x' ih =>
    obtain ⟨ht, hd⟩ := ih fun d hd => h d (List.mem_cons_of_mem c hd)
    simp [List.takeWhile_cons, List.dropWhile_cons, h c (List.mem_cons_self c x'), ht, hd]

theorem extract_text_from_spans_id (b : Str) (h : '<' ∉ b) : extract_text_from_spans b = b := by
  cases b with
  | nil => rfl
  | cons c rest =>
    have hc : ¬ c = '<' := fun he => h (he ▸ List.mem_cons_self c rest)
    have hall : ∀ d ∈ c :: rest, (decide (d ≠ '<')) = true := by
      intro d hd; simp; exact fun he => h (he ▸ hd)
    obtain ⟨ht, hdr⟩ := takeWhile_all _ _ hall
    rw [extract_text_from_spans]
    show extractSpansGo (rest.length + 1) (c :: rest) = c :: rest
    rw [extractSpansGo]
    simp only [hc, if_false, ht, hdr]
    cases rest.length <;> simp [extractSpansGo]

theorem unescapeGo_id (s : Str) (h : '&' ∉ s) : ∀ fuel, unescapeGo fuel s = s := by
  intro fuel
  induction fuel generalizing s with
  | zero => cases s <;> rfl
  | succ f ih =>
    cases s with
    | nil => rfl
    | cons c rest =>
      have hc : ¬ c = '&' := fun he => h (he ▸ List.mem_cons_self c rest)
      rw [unescapeGo]
      simp only [hc, if_false]
      rw [ih rest fun hm => h (List.mem_cons_of_mem c hm)]

theorem unescapeL_id (s : Str) (h : '&' ∉ s) : unescapeL s = s := unescapeGo_id s h _

theorem splitCh_nosep (sep : Char) (x : Str) (h : sep ∉ x) : splitCh sep x = [x] := by
  induction x with
  | nil => rfl
  | cons c x' ih =>
    have hc : ¬ c = sep := fun he => h (he ▸ List.mem_cons_self c x')
    have := ih fun hm => h (List.mem_cons_of_mem c hm)
    simp [splitCh, hc, this]

theorem splitNL_join (bodies : List Str) (hne : bodies ≠ [])
    (h : ∀ b ∈ bodies, '\n' ∉ b) : splitNL (joinSep ['\n'] bodies) = bodies := by
  induction bodies with
  | nil => exact absurd rfl hne
  | cons b t ih =>
    cases t with
    | nil =>
      show splitCh '\n' (joinSep ['\n'] [b]) = [b]
      rw [joinSep]
      exact splitCh_nosep '\n' b (h b (List.mem_cons_self b []))
    | cons b2 t' =>
      have ih' := ih (by simp) fun x hx => h x (List.mem_cons_of_mem b hx)
      have hb : '\n' ∉ b := h b (List.mem_cons_self b _)
      show splitCh '\n' (joinSep ['\n'] (b :: b2 :: t')) = b :: b2 :: t'
      rw [joinSep]
      have harr : b ++ ['\n'] ++ joinSep ['\n'] (b2 :: t') =
          b ++ ('\n' :: joinSep ['\n'] (b2 :: t')) := by simp
      rw [harr, splitCh_app_nosep '\n' b _ hb _ _ (splitCh_cons_sep '\n' _)]
      rw [show splitCh '\n' (joinSep ['\n'] (b2 :: t')) = splitNL (joinSep ['\n'] (b2 :: t')) from rfl]
      rw [ih']
      simp

theorem laOk_nil : laOk [] = true := by decide

theorem laOk_sep (r : Str) (hr : startsL lineOpenLit r = true) : laOk ('\n' :: r) = true := by
  have h0 : isPySpace '\n' = true := by decide
  have h1 : ('\n' :: r).dropWhile isPySpace = r.dropWhile isPySpace := by
    rw [List.dropWhile_cons, if_pos h0]
  rw [laOk, h1]
  cases r with
  | nil => exact absurd hr (by decide)
  | cons c cs =>
    have hc : c = '<' := by
      rw [show lineOpenLit = '<' :: strL "span class=\"line" from rfl] at hr
      simp [startsL] at hr
      exact hr.1.symm
    have h2 : isPySpace c = false := by rw [hc]; decide
    have h3 : (c :: cs).dropWhile isPySpace = c :: cs := by
      rw [List.dropWhile_cons, if_neg (by simp [h2])]
    rw [h3, hr]
    simp

theorem lazyCloseSpan_run (b r : Str) (hb : '<' ∉ b) (hla : laOk r = true) :
    ∀ (acc : Str) (fuel : Nat), b.length + 1 ≤ fuel →
      lazyCloseSpan fuel acc (b ++ (strL "</span>" ++ r)) = some (acc.reverse ++ b, r) := by
  induction b with
  | nil =>
    intro acc fuel hf
    obtain ⟨f, rfl⟩ : ∃ f, fuel = f + 1 := ⟨fuel - 1, by omega⟩
    rw [List.nil_append,
      show strL "</span>" ++ r = '<' :: (strL "/span>" ++ r) from rfl, lazyCloseSpan]
    have hstart : startsL (strL "</span>") ('<' :: (strL "/span>" ++ r)) = true := by
      exact startsL_self_append (strL "</span>") r
    have hdrop : ('<' :: (strL "/span>" ++ r)).drop 7 = r := rfl
    rw [hstart, hdrop, hla]
    simp
  | cons d ds ih =>
    intro acc fuel hf
    obtain ⟨f, rfl⟩ : ∃ f, fuel = f + 1 := ⟨fuel - 1, by omega⟩
    have hd : d ≠ '<' := fun he => hb (he ▸ List.mem_cons_self d ds)
    rw [List.cons_append, lazyCloseSpan]
    have hstart : startsL (strL "</span>") (d :: (ds ++ (strL "</span>" ++ r))) = false := by
      rw [show strL "</span>" = '<' :: strL "/span>" from rfl]
      exact startsL_cons_false _ _ (Ne.symm hd)
    rw [hstart]
    simp only [Bool.false_and, Bool.false_eq_true, if_false]
    rw [ih (fun hm => hb (List.mem_cons_of_mem d hm)) (d :: acc) f (by simp at hf ⊢; omega)]
    simp

theorem mLineSpan_none {t : Str} (h : startsL lineOpenLit t = false) : mLineSpan t = none := by
  simp [mLineSpan, h]

theorem mLineSpan_at (b r : Str) (hb : '<' ∉ b) (hla : laOk r = true) :
    mLineSpan (mkLineSpan b ++ r) = some (b, r) := by
  have hassoc : mkLineSpan b ++ r =
      strL "<span class=\"line\">" ++ (b ++ (strL "</span>" ++ r)) := by
    simp [mkLineSpan, List.append_assoc]
  rw [hassoc]
  show lazyCloseSpan ((b ++ (strL "</span>" ++ r)).length + 1) [] (b ++ (strL "</span>" ++ r)) =
    some (b, r)
  have := lazyCloseSpan_run b r hb hla [] ((b ++ (strL "</span>" ++ r)).length + 1)
    (by simp [List.length_append])
  simpa using this

theorem findAllGo_nil (m : Str → Option (Str × Str)) : ∀ fuel, findAllGo m fuel [] = [] := by
  intro fuel; cases fuel <;> rfl

theorem joinSpans_cons (b2 : Str) (t' : List Str) :
    ∃ r', joinSep ['\n'] ((b2 :: t').map mkLineSpan) = mkLineSpan b2 ++ r' := by
  cases t' with
  | nil => exact ⟨[], by simp [joinSep]⟩
  | cons b3 t'' =>
    refine ⟨'\n' :: joinSep ['\n'] ((b3 :: t'').map mkLineSpan), ?_⟩
    show mkLineSpan b2 ++ ['\n'] ++ joinSep ['\n'] ((b3 :: t'').map mkLineSpan) = _
    simp

theorem startsL_spans (b2 : Str) (t' : List Str) :
    startsL lineOpenLit (joinSep ['\n'] ((b2 :: t').map mkLineSpan)) = true := by
  obtain ⟨r', hr'⟩ := joinSpans_cons b2 t'
  rw [hr']
  have : mkLineSpan b2 ++ r' =
      lineOpenLit ++ (strL "\">" ++ (b2 ++ (strL "</span>" ++ r'))) := by
    simp [mkLineSpan, show strL "<span class=\"line\">" = lineOpenLit ++ strL "\">" from rfl,
      List.append_assoc]
  rw [this]
  exact startsL_self_append _ _

theorem findAllGo_spans (bodies : List Str) (hne : bodies ≠ [])
    (hb : ∀ b ∈ bodies, '<' ∉ b) :
    ∀ fuel, (joinSep ['\n'] (bodies.map mkLineSpan)).length ≤ fuel →
      findAllGo mLineSpan fuel (joinSep ['\n'] (bodies.map mkLineSpan)) = bodies := by
  induction bodies with
  | nil => exact absurd rfl hne
  | cons b t ih =>
    intro fuel hf
    have hbmem : '<' ∉ b := hb b (List.mem_cons_self b t)
    have hcons : mkLineSpan b = '<' :: (strL "span class=\"line\">" ++ b ++ strL "</span>") := rfl
    cases t with
    | nil =>
      have hC : joinSep ['\n'] ([b].map mkLineSpan) = mkLineSpan b := rfl
      rw [hC] at hf ⊢
      have hlen : 1 ≤ fuel := by
        rw [hcons] at hf; simp at hf; omega
      obtain ⟨f, rfl⟩ : ∃ f, fuel = f + 1 := ⟨fuel - 1, by omega⟩
      have hm : mLineSpan ('<' :: (strL "span class=\"line\">" ++ b ++ strL "</span>")) =
          some (b, []) := by
        have := mLineSpan_at b [] hbmem laOk_nil
        rw [show mkLineSpan b ++ [] = mkLineSpan b by simp, hcons] at this
        exact this
      rw [hcons, findAllGo, hm]
      show b :: findAllGo mLineSpan f [] = [b]
      rw [findAllGo_nil]
    | cons b2 t' =>
      have hC : joinSep ['\n'] ((b :: b2 :: t').map mkLineSpan) =
          mkLineSpan b ++ ('\n' :: joinSep ['\n'] ((b2 :: t').map mkLineSpan)) := by
        show mkLineSpan b ++ ['\n'] ++ joinSep ['\n'] ((b2 :: t').map mkLineSpan) = _
        simp
      rw [hC] at hf ⊢
      have hlen2 : (joinSep ['\n'] ((b2 :: t').map mkLineSpan)).length + 2 ≤ fuel := by
        rw [hcons] at hf
        simp [List.length_append] at hf ⊢
        omega
      obtain ⟨f, rfl⟩ : ∃ f, fuel = f + 1 := ⟨fuel - 1, by omega⟩
      have hla : laOk ('\n' :: joinSep ['\n'] ((b2 :: t').map mkLineSpan)) = true :=
        laOk_sep _ (startsL_spans b2 t')
      have hm := mLineSpan_at b ('\n' :: joinSep ['\n'] ((b2 :: t').map mkLineSpan)) hbmem hla
      have hshape2 : mkLineSpan b ++ ('\n' :: joinSep ['\n'] ((b2 :: t').map mkLineSpan)) =
          '<' :: ((strL "span class=\"line\">" ++ b ++ strL "</span>") ++
            ('\n' :: joinSep ['\n'] ((b2 :: t').map mkLineSpan))) := by
        rw [hcons]; rfl
      rw [hshape2] at hm ⊢
      rw [findAllGo, hm]
      show b :: findAllGo mLineSpan f ('\n' :: joinSep ['\n'] ((b2 :: t').map mkLineSpan)) =
        b :: b2 :: t'
      obtain ⟨f', rfl⟩ : ∃ f', f = f' + 1 := ⟨f - 1, by omega⟩
      have hnone : mLineSpan ('\n' :: joinSep ['\n'] ((b2 :: t').map mkLineSpan)) = none := by
        refine mLineSpan_none ?_
        rw [show lineOpenLit = '<' :: strL "span class=\"line" from rfl]
        exact startsL_cons_false _ _ (by decide)
      rw [findAllGo, hnone]
      rw [ih (by simp) (fun x hx => hb x (List.mem_cons_of_mem b hx)) f' (by omega)]

theorem findallLineSpans_run (bodies : List Str) (hne : bodies ≠ [])
    (hb : ∀ b ∈ bodies, '<' ∉ b) :
    findallLineSpans (joinSep ['\n'] (bodies.map mkLineSpan)) = bodies :=
  findAllGo_spans bodies hne hb _ (Nat.le_refl _)

/-- C3 (amended): for every highlighted block whose language parses to `lang`
and whose code element consists of N newline-separated line-spans with
newline-free, markup-free texts whose joined form is already trimmed, the
emitted fence contains exactly the N line texts, newline-separated, in source
order.  (Without the trimmedness condition the final `strip()` can drop
leading/trailing whitespace-only lines, as the counterexample shows.) -/
theorem code_lines_count (lang : Str) (bodies : List Str)
    (hlang : searchLangClass (mkHighlightBlock lang bodies).length (mkHighlightBlock lang bodies)
      = some lang)
    (hcode : searchCodeElem (mkHighlightBlock lang bodies)
      = some (joinSep ['\n'] (bodies.map mkLineSpan)))
    (hb : ∀ b ∈ bodies, '<' ∉ b ∧ '&' ∉ b ∧ '\n' ∉ b)
    (hne : bodies ≠ [])
    (hstrip : pyStrip (joinSep ['\n'] bodies) = joinSep ['\n'] bodies) :
    extract_code_from_pre (mkHighlightBlock lang bodies) =
      strL "\n```" ++ lang ++ ['\n'] ++ joinSep ['\n'] bodies ++ strL "\n```\n" ∧
    splitNL (joinSep ['\n'] bodies) = bodies := by
  have hfa : findallLineSpans (joinSep ['\n'] (bodies.map mkLineSpan)) = bodies :=
    findallLineSpans_run bodies hne (fun b h => (hb b h).1)
  have hmap : ∀ (l : List Str), (∀ b ∈ l, '<' ∉ b ∧ '&' ∉ b ∧ '\n' ∉ b) →
      l.map (fun x => unescapeL (extract_text_from_spans x)) = l := by
    intro l hl
    induction l with
    | nil => rfl
    | cons x xs ihx =>
      have hx := hl x (List.mem_cons_self x xs)
      rw [List.map_cons, extract_text_from_spans_id x hx.1, unescapeL_id x hx.2.1,
        ihx fun b hb2 => hl b (List.mem_cons_of_mem x hb2)]
  have hE : bodies.isEmpty = false := by
    cases bodies with
    | nil => exact absurd rfl hne
    | cons _ _ => rfl
  constructor
  · rw [extract_code_from_pre]
    simp only [hlang, hcode, hfa, hE, Bool.false_eq_true, if_false, hmap bodies hb, hstrip]
  · exact splitNL_join bodies hne fun b h => (hb b h).2.2

theorem code_lines_count_witness :
    extract_code_from_pre (mkHighlightBlock (strL "csharp") [strL "foo();", strL "bar();"]) =
      strL "\n```" ++ strL "csharp" ++ ['\n'] ++
        joinSep ['\n'] [strL "foo();", strL "bar();"] ++ strL "\n```\n" ∧
    splitNL (joinSep ['\n'] [strL "foo();", strL "bar();"]) = [strL "foo();", strL "bar();"] :=
  code_lines_count (strL "csharp") [strL "foo();", strL "bar();"]
    (by decide) (by decide) (by decide) (by decide) (by decide)

/-!
## C7: fence interiors under whitespace cleanup
-/

theorem startsL_cons3_false {c1 c2 c3 d1 d2 d3 : Char} (l ds : Str) (h : (c3 == d3) = false) :
    startsL (c1 :: c2 :: c3 :: l) (d1 :: d2 :: d3 :: ds) = false := by
  simp [startsL, h]

theorem getLast?_of_suffix_singleton {c : Char} {x : Str} (h : [c] <:+ x) :
    x.getLast? = some c := by
  obtain ⟨t, rfl⟩ := h
  simp

theorem getLast?_of_suffix_pair {c d : Char} {x : Str} (h : [c, d] <:+ x) :
    x.getLast? = some d := by
  obtain ⟨t, rfl⟩ := h
  rw [show t ++ [c, d] = (t ++ [c]) ++ [d] by simp]
  simp

theorem findLit_none_iff (lit : Str) (hlit : lit ≠ []) (s : Str) :
    ∀ fuel, s.length ≤ fuel →
      (findLit lit fuel s = none ↔ ∀ t, t <:+ s → startsL lit t = false) := by
  induction s with
  | nil =>
    intro fuel _
    have hsl : startsL lit [] = false := by
      cases lit with
      | nil => exact absurd rfl hlit
      | cons a as => rfl
    constructor
    · intro _ t ht
      rw [List.suffix_nil.mp ht]
      exact hsl
    · intro _
      cases fuel with
      | zero => rfl
      | succ f => simp [findLit, hsl]
  | cons c cs ih =>
    intro fuel hf
    obtain ⟨f, rfl⟩ : ∃ f, fuel = f + 1 := ⟨fuel - 1, by simp at hf; omega⟩
    have hf' : cs.length ≤ f := by simp at hf; omega
    cases hs : startsL lit (c :: cs) with
    | true =>
      constructor
      · intro hnone
        rw [findLit, hs] at hnone
        simp at hnone
      · intro hall
        exact absurd (hall (c :: cs) (List.suffix_refl _)) (by simp [hs])
    | false =>
      rw [findLit, hs]
      simp only [Bool.false_eq_true, if_false]
      constructor
      · intro hnone t ht
        rcases List.suffix_cons_iff.mp ht with rfl | ht2
        · exact hs
        · refine ((ih f hf').mp ?_) t ht2
          cases hrec : findLit lit f cs with
          | none => rfl
          | some p =>
            rw [hrec] at hnone
            rcases p with ⟨p1, p2⟩
            simp at hnone
      · intro hall
        have : findLit lit f cs = none :=
          (ih f hf').mpr fun t ht => hall t (ht.trans (List.suffix_cons c cs))
        rw [this]

theorem not_infix_of_containsL_false {lit s : Str} (hlit : lit ≠ [])
    (h : containsL lit s = false) : ¬ lit <:+: s := by
  rintro ⟨u, w, huw⟩
  have hsuf : lit ++ w <:+ s := ⟨u, by rw [← huw]; simp⟩
  have hnone : findLitW lit s = none := by
    cases hfw : findLitW lit s with
    | none => rfl
    | some p => rw [containsL, hfw] at h; simp at h
  have := (findLit_none_iff lit hlit s s.length (Nat.le_refl _)).mp hnone (lit ++ w) hsuf
  rw [startsL_self_append] at this
  simp at this

/-- Backtick-run analysis: no fence-pattern start inside an interior that has
no triple backtick and does not end in a backtick. -/
theorem no_fence_start_in_interior (x y : Str)
    (hinf : containsL fence3 x = false) (hlast : x.getLast? ≠ some '`') :
    ∀ x2, x2 ≠ [] → x2 <:+ x → startsL fence3 (x2 ++ (fence3 ++ y)) = false := by
  intro x2 hne hsuf
  have hf3 : fence3 = '`' :: '`' :: '`' :: [] := rfl
  cases x2 with
  | nil => exact absurd rfl hne
  | cons d ds =>
    by_cases hd : d = '`'
    · subst hd
      cases ds with
      | nil => exact absurd (getLast?_of_suffix_singleton hsuf) hlast
      | cons e es =>
        by_cases he : e = '`'
        · subst he
          cases es with
          | nil => exact absurd (getLast?_of_suffix_pair hsuf) hlast
          | cons f fs =>
            by_cases hfc : f = '`'
            · subst hfc
              exfalso
              obtain ⟨u, hu⟩ := hsuf
              refine not_infix_of_containsL_false (by simp [fence3, strL]) hinf ⟨u, fs, ?_⟩
              rw [← hu]
              simp [fence3, strL]
            · rw [hf3]
              exact startsL_cons3_false _ _ (beq_eq_false_iff_ne.mpr fun he2 => hfc he2.symm)
        · rw [hf3]
          exact startsL_cons2_false _ _ (beq_eq_false_iff_ne.mpr fun he2 => he he2.symm)
    · rw [hf3]
      exact startsL_cons_false _ _ fun he2 => hd he2.symm

theorem fenceMatch_none {t : Str} (h : startsL fence3 t = false) : fenceMatch t = none := by
  simp [fenceMatch, h]

theorem fenceMatch_at (x b : Str) (hinf : containsL fence3 x = false)
    (hlast : x.getLast? ≠ some '`') :
    fenceMatch (fence3 ++ (x ++ (fence3 ++ b))) = some (fence3 ++ x ++ fence3, b) := by
  rw [fenceMatch, startsL_self_append]
  simp only [if_true]
  have hdrop : (fence3 ++ (x ++ (fence3 ++ b))).drop 3 = x ++ (fence3 ++ b) := rfl
  rw [hdrop]
  have hfind : findLitW fence3 (x ++ (fence3 ++ b)) = some (x, b) :=
    findLitW_at fence3 x b (by simp [fence3, strL])
      (no_fence_start_in_interior x b hinf hlast)
  rw [hfind]

theorem splitFGo_nil (fuel : Nat) : splitFGo fuel [] = [[]] := by
  cases fuel <;> rfl

theorem splitFGo_ne_nil (fuel : Nat) (s : Str) : splitFGo fuel s ≠ [] := by
  induction fuel generalizing s with
  | zero => simp [splitFGo]
  | succ f ih =>
    cases s with
    | nil => simp [splitFGo]
    | cons c cs =>
      rw [splitFGo]
      cases hm : fenceMatch (c :: cs) with
      | some p =>
        rcases p with ⟨m, rest⟩
        simp
      | none =>
        simp only []
        rcases hs : splitFGo f cs with _ | ⟨p, ps⟩
        · exact absurd hs (ih cs)
        · simp [consHead]

theorem splitFGo_skip (x y : Str) (fuel : Nat) (p : Str) (ps : List Str)
    (h : ∀ x2, x2 ≠ [] → x2 <:+ x → fenceMatch (x2 ++ y) = none)
    (hy : splitFGo fuel y = p :: ps) :
    splitFGo (x.length + fuel) (x ++ y) = (x ++ p) :: ps := by
  induction x with
  | nil => simpa using hy
  | cons c x' ih =>
    have hnone : fenceMatch ((c :: x') ++ y) = none := h (c :: x') (by simp) (List.suffix_refl _)
    have ih' := ih fun x2 hne hsuf => h x2 hne (hsuf.trans (List.suffix_cons c x'))
    simp only [List.cons_append, List.length_cons]
    rw [Nat.succ_add, splitFGo]
    simp only [List.cons_append] at hnone
    rw [hnone]
    simp only []
    rw [ih']
    simp [consHead]

theorem splitFGo_id (s : Str) (h : ∀ t, t <:+ s → fenceMatch t = none) :
    ∀ fuel, splitFGo fuel s = [s] := by
  intro fuel
  induction fuel generalizing s with
  | zero => cases s <;> rfl
  | succ f ih =>
    cases s with
    | nil => rfl
    | cons c cs =>
      rw [splitFGo, h (c :: cs) (List.suffix_refl _)]
      simp only []
      rw [ih cs fun t ht => h t (ht.trans (List.suffix_cons c cs))]
      rfl

/-- Newline-run collapsing distributes over an append whose right part starts
with a non-newline character. -/
theorem collapseGo_append_headNN (u v : Str) (c : Char) (hc : c ≠ '\n') :
    ∀ p, collapseGo p (u ++ (c :: v)) = collapseGo p u ++ collapseGo 0 (c :: v) := by
  induction u with
  | nil =>
    intro p
    rw [List.nil_append, collapseGo, collapseGo]
    simp only [hc, if_false]
    rw [collapseGo]
    simp [hc]
  | cons d u' ih =>
    intro p
    rw [List.cons_append, collapseGo, collapseGo]
    by_cases hd : d = '\n'
    · simp only [hd, if_pos rfl]
      exact ih (p + 1)
    · simp only [hd, if_false]
      rw [ih 0]
      simp

/-- Newline-run collapsing distributes over an append at a non-newline
character on the left of the boundary. -/
theorem collapseGo_append_lastNN (u v : Str) (c : Char) (hc : c ≠ '\n') :
    ∀ p, collapseGo p (u ++ (c :: v)) = collapseGo p (u ++ [c]) ++ collapseGo 0 v := by
  induction u with
  | nil =>
    intro p
    rw [List.nil_append, List.nil_append, collapseGo, collapseGo]
    simp only [hc, if_false]
    rw [show collapseGo 0 [] = [] from rfl]
    simp
  | cons d u' ih =>
    intro p
    rw [List.cons_append, List.cons_append, collapseGo, collapseGo]
    by_cases hd : d = '\n'
    · simp only [hd, if_pos rfl]
      exact ih (p + 1)
    · simp only [hd, if_false]
      rw [ih 0]
      simp

/-- The number of leading newlines of every suffix of `s`, when `s` has no
triple-newline run. -/
theorem leadNL_le_two {s : Str} (h : noTripleNL s = true) :
    ∀ t, t <:+ s → (t.takeWhile (· = '\n')).length ≤ 2 := by
  intro t ht
  by_contra hgt
  have h3 : startsL (strL "\n\n\n") t = true := by
    rcases t with _ | ⟨c1, t1⟩
    · simp at hgt
    rcases t1 with _ | ⟨c2, t2⟩
    · by_cases h1 : c1 = '\n' <;> simp [List.takeWhile, h1] at hgt
    rcases t2 with _ | ⟨c3, t3⟩
    · by_cases h1 : c1 = '\n' <;> by_cases h2 : c2 = '\n' <;>
        simp [List.takeWhile, h1, h2] at hgt
    · by_cases h1 : c1 = '\n' <;> by_cases h2 : c2 = '\n' <;> by_cases h3 : c3 = '\n' <;>
        simp [List.takeWhile, h1, h2, h3] at hgt <;>
        simp [strL, startsL, h1, h2, h3]
  have hnone : findLitW (strL "\n\n\n") s = none := by
    cases hfw : findLitW (strL "\n\n\n") s with
    | none => rfl
    | some p =>
      rw [noTripleNL, containsL, hfw] at h
      simp at h
  have := (findLit_none_iff (strL "\n\n\n") (by simp [strL]) s s.length (Nat.le_refl _)).mp
    hnone t ht
  rw [h3] at this
  simp at this

theorem collapseGo_id_aux (s : Str) (hs : ∀ t, t <:+ s → (t.takeWhile (· = '\n')).length ≤ 2) :
    ∀ p, p + (s.takeWhile (· = '\n')).length ≤ 2 →
      collapseGo p s = List.replicate p '\n' ++ s := by
  induction s with
  | nil =>
    intro p hp
    rw [collapseGo]
    simp at hp ⊢
    omega
  | cons c cs ih =>
    intro p hp
    rw [collapseGo]
    by_cases hc : c = '\n'
    · simp only [hc, if_pos rfl]
      have hcs : ∀ t, t <:+ cs → (t.takeWhile (· = '\n')).length ≤ 2 :=
        fun t ht => hs t (ht.trans (List.suffix_cons c cs))
      have hlen : (('\n' :: cs).takeWhile (· = '\n')).length =
          (cs.takeWhile (· = '\n')).length + 1 := by
        simp [List.takeWhile_cons]
      rw [hc] at hp
      rw [hlen] at hp
      rw [ih hcs (p + 1) (by omega)]
      rw [show List.replicate (p + 1) '\n' = List.replicate p '\n' ++ ['\n'] from
        List.replicate_succ' (p) '\n' ▸ rfl]
      simp [hc]
    · simp only [hc, if_false]
      have hp2 : p ≤ 2 := by omega
      have hcs : ∀ t, t <:+ cs → (t.takeWhile (· = '\n')).length ≤ 2 :=
        fun t ht => hs t (ht.trans (List.suffix_cons c cs))
      rw [ih hcs 0 (by
        have := hs cs (List.suffix_cons c cs)
        omega)]
      simp only [List.replicate_zero, List.nil_append]
      rw [if_neg (by omega)]

theorem collapseNL_id {s : Str} (h : noTripleNL s = true) : collapseNL s = s := by
  have := collapseGo_id_aux s (leadNL_le_two h) 0 (by
    have := leadNL_le_two h s (List.suffix_refl _)
    omega)
  simpa [collapseNL] using this

theorem dropWhile_append_mid (p : Char → Bool) (u m w : Str) (c : Char) (hm : m.head? = some c)
    (hc : p c = false) : List.dropWhile p (u ++ (m ++ w)) = List.dropWhile p u ++ (m ++ w) := by
  induction u with
  | nil =>
    simp only [List.nil_append, List.dropWhile_nil]
    cases m with
    | nil => simp at hm
    | cons d ds =>
      have : d = c := by simpa using hm
      subst this
      simp [List.dropWhile_cons, hc]
  | cons d u' ih =>
    by_cases hd : p d
    · simp [List.dropWhile_cons, hd, ih]
    · simp [List.dropWhile_cons, hd]

theorem startsL_NNN_of_leadNL {t : Str} (h : 3 ≤ (t.takeWhile (· = '\n')).length) :
    startsL (strL "\n\n\n") t = true := by
  rcases t with _ | ⟨c1, t1⟩
  · simp at h
  rcases t1 with _ | ⟨c2, t2⟩
  · by_cases h1 : c1 = '\n' <;> simp [List.takeWhile, h1] at h
  rcases t2 with _ | ⟨c3, t3⟩
  · by_cases h1 : c1 = '\n' <;> by_cases h2 : c2 = '\n' <;>
      simp [List.takeWhile, h1, h2] at h
  · by_cases h1 : c1 = '\n' <;> by_cases h2 : c2 = '\n' <;> by_cases h3 : c3 = '\n' <;>
      first
        | (subst h1; subst h2; subst h3; simp [strL, startsL])
        | (simp [List.takeWhile, h1, h2, h3] at h)

theorem collapseNL_id_of_suffixes (s : Str)
    (h : ∀ t, t <:+ s → startsL (strL "\n\n\n") t = false) : collapseNL s = s := by
  have hs : ∀ t, t <:+ s → (t.takeWhile (· = '\n')).length ≤ 2 := by
    intro t ht
    by_contra hgt
    have := startsL_NNN_of_leadNL (t := t) (by omega)
    rw [h t ht] at this
    simp at this
  have := collapseGo_id_aux s hs 0 (by
    have := hs s (List.suffix_refl _)
    omega)
  simpa [collapseNL] using this

theorem mem_fence3_backtick {d : Char} (h : d ∈ fence3) : d = '`' := by
  rw [show fence3 = ['`', '`', '`'] from rfl] at h
  simpa using h

/-- No triple-newline run anywhere in a fenced block whose interior has none. -/
theorem noNNN_in_fence (x : Str) (hx : noTripleNL x = true) :
    ∀ t, t <:+ (fence3 ++ x) ++ fence3 → startsL (strL "\n\n\n") t = false := by
  have hxsuf : ∀ t2, t2 <:+ x → startsL (strL "\n\n\n") t2 = false := by
    intro t2 ht2
    have hnone : findLitW (strL "\n\n\n") x = none := by
      cases hfw : findLitW (strL "\n\n\n") x with
      | none => rfl
      | some p =>
        rw [noTripleNL, containsL, hfw] at hx
        simp at hx
    exact (findLit_none_iff (strL "\n\n\n") (by simp [strL]) x x.length (Nat.le_refl _)).mp
      hnone t2 ht2
  intro t ht
  rcases suffix_append_cases ht with hf | ⟨x2, hs2, hne2, rfl⟩
  · -- suffix of the closing "```"
    rcases List.suffix_cons_iff.mp hf with rfl | h2
    · exact startsL_cons_false _ _ (by decide)
    rcases List.suffix_cons_iff.mp h2 with rfl | h3
    · exact startsL_cons_false _ _ (by decide)
    rcases List.suffix_cons_iff.mp h3 with rfl | h4
    · exact startsL_cons_false _ _ (by decide)
    · have : t = [] := by simpa using h4
      subst this
      rfl
  · rcases suffix_append_cases hs2 with hx2 | ⟨f2, hf2, hnef2, rfl⟩
    · -- t = x2 ++ "```" with x2 a nonempty suffix of x
      rcases x2 with _ | ⟨d, ds⟩
      · exact absurd rfl hne2
      by_cases hd : d = '\n'
      · subst hd
        rcases ds with _ | ⟨e, es⟩
        · exact startsL_cons2_false _ _ (by decide)
        by_cases he : e = '\n'
        · subst he
          rcases es with _ | ⟨f, fs⟩
          · exact startsL_cons3_false _ _ (by decide)
          by_cases hfc : f = '\n'
          · subst hfc
            exfalso
            have := hxsuf _ hx2
            rw [show startsL (strL "\n\n\n") ('\n' :: '\n' :: '\n' :: fs) = true by
              simp [strL, startsL]] at this
            simp at this
          · exact startsL_cons3_false _ _ (beq_eq_false_iff_ne.mpr fun he2 => hfc he2.symm)
        · exact startsL_cons2_false _ _ (beq_eq_false_iff_ne.mpr fun he2 => he he2.symm)
      · exact startsL_cons_false _ _ fun he2 => hd he2.symm
    · -- t starts inside the opening "```"
      rcases f2 with _ | ⟨d, ds⟩
      · exact absurd rfl hnef2
      have hd : d = '`' := mem_fence3_backtick (hf2.subset (List.mem_cons_self d ds))
      subst hd
      exact startsL_cons_false _ _ (by decide)

/-- C7 (amended): an interior with no triple-newline run survives the cleanup
verbatim inside its fence; outside spans are cleaned (tags stripped, newline
runs collapsed, lines trimmed, buffer stripped).  The counterexample shows the
final global collapse does rewrite interiors containing triple-newline runs. -/
theorem cleanup_fence_interior (a x b : Str)
    (ha : '`' ∉ a) (hb : '`' ∉ b) (hx3 : noTripleNL x = true)
    (hxf : containsL fence3 x = false) (hxl : x.getLast? ≠ some '`') :
    (∃ A B : Str,
      cleanup_whitespace (a ++ (fence3 ++ x ++ fence3) ++ b) =
        A ++ (fence3 ++ x ++ fence3) ++ B) ∧
    cleanup_whitespace (strL "<b>\n\n\n\n  hi  ") = strL "hi" := by
  refine ⟨?_, by decide⟩
  have hassoc : a ++ (fence3 ++ x ++ fence3) ++ b =
      a ++ (fence3 ++ (x ++ (fence3 ++ b))) := by simp
  -- the split isolates the fence
  have hfm : fenceMatch (fence3 ++ (x ++ (fence3 ++ b))) = some (fence3 ++ x ++ fence3, b) :=
    fenceMatch_at x b hxf hxl
  have hYcons : fence3 ++ (x ++ (fence3 ++ b)) =
      '`' :: ('`' :: '`' :: (x ++ (fence3 ++ b))) := rfl
  have hbnofence : ∀ t, t <:+ b → fenceMatch t = none := by
    intro t ht
    cases t with
    | nil => exact fenceMatch_none (by decide)
    | cons d ds =>
      have hd : d ≠ '`' := fun he => hb (he ▸ ht.subset (List.mem_cons_self d ds))
      exact fenceMatch_none (by
        rw [show fence3 = '`' :: ['`', '`'] from rfl]
        exact startsL_cons_false _ _ (Ne.symm hd))
  have hsplitY : ∀ fuel, splitFGo (fuel + 1) (fence3 ++ (x ++ (fence3 ++ b))) =
      [] :: (fence3 ++ x ++ fence3) :: [b] := by
    intro fuel
    rw [hYcons, splitFGo]
    rw [hYcons] at hfm
    rw [hfm]
    simp only []
    rw [splitFGo_id b hbnofence fuel]
  have hanofence : ∀ x2, x2 ≠ [] → x2 <:+ a →
      fenceMatch (x2 ++ (fence3 ++ (x ++ (fence3 ++ b)))) = none := by
    intro x2 hne hs
    cases x2 with
    | nil => exact absurd rfl hne
    | cons d ds =>
      have hd : d ≠ '`' := fun he => ha (he ▸ hs.subset (List.mem_cons_self d ds))
      exact fenceMatch_none (by
        rw [show fence3 = '`' :: ['`', '`'] from rfl]
        exact startsL_cons_false _ _ (Ne.symm hd))
  have hlenY : (fence3 ++ (x ++ (fence3 ++ b))).length =
      ((fence3 ++ (x ++ (fence3 ++ b))).length - 1) + 1 := by
    rw [hYcons]; simp
  have hsplit : splitFences (a ++ (fence3 ++ (x ++ (fence3 ++ b)))) =
      [a, fence3 ++ x ++ fence3, b] := by
    rw [splitFences, List.length_append, hlenY]
    rw [splitFGo_skip a _ _ [] ((fence3 ++ x ++ fence3) :: [b]) hanofence (hsplitY _)]
    simp
  -- mapping over the three parts
  have hfa : startsL fence3 a = false := by
    cases a with
    | nil => decide
    | cons d ds =>
      have hd : d ≠ '`' := fun he => ha (he ▸ List.mem_cons_self d ds)
      rw [show fence3 = '`' :: ['`', '`'] from rfl]
      exact startsL_cons_false _ _ (Ne.symm hd)
  have hfb : startsL fence3 b = false := by
    cases b with
    | nil => decide
    | cons d ds =>
      have hd : d ≠ '`' := fun he => hb (he ▸ List.mem_cons_self d ds)
      rw [show fence3 = '`' :: ['`', '`'] from rfl]
      exact startsL_cons_false _ _ (Ne.symm hd)
  have hfF : startsL fence3 (fence3 ++ x ++ fence3) = true := by
    rw [show fence3 ++ x ++ fence3 = fence3 ++ (x ++ fence3) by simp]
    exact startsL_self_append _ _
  rw [hassoc, cleanup_whitespace, hsplit]
  simp only [List.map_cons, List.map_nil, hfa, hfb, hfF, Bool.false_eq_true, if_false, if_true,
    List.flatten_cons, List.flatten_nil, List.append_nil]
  -- collapse distributes around the fence and fixes it
  have hFcons : (fence3 ++ x ++ fence3) ++ cleanTextPart b =
      '`' :: (('`' :: '`' :: (x ++ fence3)) ++ cleanTextPart b) := by simp [fence3, strL]
  have hcol1 : collapseGo 0 (cleanTextPart a ++ ((fence3 ++ x ++ fence3) ++ cleanTextPart b)) =
      collapseGo 0 (cleanTextPart a) ++
        collapseGo 0 ((fence3 ++ x ++ fence3) ++ cleanTextPart b) := by
    rw [hFcons]
    exact collapseGo_append_headNN _ _ '`' (by decide) 0
  have hF2 : (fence3 ++ x ++ fence3) ++ cleanTextPart b =
      ((fence3 ++ x) ++ ['`', '`']) ++ ('`' :: cleanTextPart b) := by
    simp [fence3, strL]
  have hcol2 : collapseGo 0 ((fence3 ++ x ++ fence3) ++ cleanTextPart b) =
      collapseGo 0 (fence3 ++ x ++ fence3) ++ collapseGo 0 (cleanTextPart b) := by
    rw [hF2, collapseGo_append_lastNN _ _ '`' (by decide) 0]
    rw [show ((fence3 ++ x) ++ ['`', '`']) ++ ['`'] = fence3 ++ x ++ fence3 by simp [fence3, strL]]
  have hcolF : collapseNL (fence3 ++ x ++ fence3) = fence3 ++ x ++ fence3 :=
    collapseNL_id_of_suffixes _ (noNNN_in_fence x hx3)
  rw [show collapseNL (cleanTextPart a ++ ((fence3 ++ x ++ fence3) ++ cleanTextPart b)) =
      collapseGo 0 (cleanTextPart a ++ ((fence3 ++ x ++ fence3) ++ cleanTextPart b)) from rfl]
  rw [hcol1, hcol2]
  rw [show collapseGo 0 (fence3 ++ x ++ fence3) =
      collapseNL (fence3 ++ x ++ fence3) from rfl, hcolF]
  -- stripping stops at the fence's backticks
  have hFhead : ((fence3 ++ x ++ fence3) ++ collapseGo 0 (cleanTextPart b)).head? = some '`' := by
    rw [show (fence3 ++ x ++ fence3) ++ collapseGo 0 (cleanTextPart b) =
      '`' :: (('`' :: '`' :: (x ++ fence3)) ++ collapseGo 0 (cleanTextPart b)) by
        simp [fence3, strL]]
    rfl
  have hd1 : (collapseGo 0 (cleanTextPart a) ++
        ((fence3 ++ x ++ fence3) ++ collapseGo 0 (cleanTextPart b))).dropWhile isPySpace =
      (collapseGo 0 (cleanTextPart a)).dropWhile isPySpace ++
        ((fence3 ++ x ++ fence3) ++ collapseGo 0 (cleanTextPart b)) := by
    refine dropWhile_append_mid isPySpace _ _ (collapseGo 0 (cleanTextPart b)) '`' ?_ (by decide)
    rw [show fence3 ++ x ++ fence3 = '`' :: ('`' :: '`' :: (x ++ fence3)) by simp [fence3, strL]]
    rfl
  rw [show collapseGo 0 (cleanTextPart a) ++ ((fence3 ++ x ++ fence3) ++
      collapseGo 0 (cleanTextPart b)) =
      collapseGo 0 (cleanTextPart a) ++ ((fence3 ++ x ++ fence3) ++
      collapseGo 0 (cleanTextPart b)) from rfl]
  rw [pyStrip, hd1]
  have hrev : ((collapseGo 0 (cleanTextPart a)).dropWhile isPySpace ++
      ((fence3 ++ x ++ fence3) ++ collapseGo 0 (cleanTextPart b))).reverse =
      (collapseGo 0 (cleanTextPart b)).reverse ++
        ((fence3 ++ x ++ fence3).reverse ++
          ((collapseGo 0 (cleanTextPart a)).dropWhile isPySpace).reverse) := by
    simp
  rw [hrev]
  have hFrevHead : (fence3 ++ x ++ fence3).reverse.head? = some '`' := by
    rw [List.head?_reverse]
    rw [show fence3 ++ x ++ fence3 = ((fence3 ++ x) ++ ['`', '`']) ++ ['`'] by
      simp [fence3, strL]]
    simp
  have hd2 : ((collapseGo 0 (cleanTextPart b)).reverse ++
      ((fence3 ++ x ++ fence3).reverse ++
        ((collapseGo 0 (cleanTextPart a)).dropWhile isPySpace).reverse)).dropWhile isPySpace =
      ((collapseGo 0 (cleanTextPart b)).reverse).dropWhile isPySpace ++
        ((fence3 ++ x ++ fence3).reverse ++
          ((collapseGo 0 (cleanTextPart a)).dropWhile isPySpace).reverse) :=
    dropWhile_append_mid isPySpace _ _ _ '`' hFrevHead (by decide)
  rw [hd2]
  refine ⟨(collapseGo 0 (cleanTextPart a)).dropWhile isPySpace,
    (((collapseGo 0 (cleanTextPart b)).reverse).dropWhile isPySpace).reverse, ?_⟩
  simp

theorem cleanup_fence_interior_witness :
    (∃ A B : Str,
      cleanup_whitespace (strL "a\n\n" ++ (fence3 ++ strL "\nx\n\ny\n" ++ fence3) ++ strL "\nb") =
        A ++ (fence3 ++ strL "\nx\n\ny\n" ++ fence3) ++ B) ∧
    cleanup_whitespace (strL "<b>\n\n\n\n  hi  ") = strL "hi" :=
  cleanup_fence_interior (strL "a\n\n") (strL "\nx\n\ny\n") (strL "\nb")
    (by decide) (by decide) (by decide) (by decide) (by decide)

/-!
## C6: re-running the converter on tag-free normalized text
-/

theorem headNotLt_ne {t : Str} (ht : headNotLt t) : ∀ d ds, t = d :: ds → d ≠ '<' := by
  intro d ds hdds he
  exact ht d ds hdds (by rw [he]; decide)

theorem startsL_lt_false {lit : Str} (hl : lit.head? = some '<') {t : Str} (ht : headNotLt t) :
    startsL lit t = false := by
  cases lit with
  | nil => simp at hl
  | cons c l' =>
    have hc : c = '<' := by simpa using hl
    subst hc
    cases t with
    | nil => rfl
    | cons d ds => exact startsL_cons_false _ _ (Ne.symm (headNotLt_ne ht d ds rfl))

theorem startsCI_lt_false {lit : Str} (hl : lit.head? = some '<') {t : Str} (ht : headNotLt t) :
    startsCI lit t = false := by
  cases lit with
  | nil => simp at hl
  | cons c l' =>
    have hc : c = '<' := by simpa using hl
    subst hc
    cases t with
    | nil => rfl
    | cons d ds =>
      exact startsCI_cons_head_false _ _
        (beq_eq_false_iff_ne.mpr fun he => ht d ds rfl he.symm)

theorem rewriteAllW_id_silent (m : Str → Option (Str × Str)) (s : Str)
    (hs : noCharCI '<' s = true) (hm : ∀ t, headNotLt t → m t = none) :
    rewriteAllW m s = s := by
  refine rewriteAll_id (fun t ht => hm t ?_) _
  intro d ds hdds
  have h2 : d :: ds <:+ s := by rw [← hdds]; exact ht
  exact noCharCI_all hs d (h2.subset (List.mem_cons_self d ds))

theorem mHiddenDiv_silent (t : Str) (ht : headNotLt t) : mHiddenDiv t = none :=
  mHiddenDiv_none (@startsCI_lt_false (strL "<div") rfl t ht)

theorem mCopyButton_silent (t : Str) (ht : headNotLt t) : mCopyButton t = none :=
  mCopyButton_none (@startsL_lt_false (strL "<button") rfl t ht)

theorem mHeaderAnchor_silent (t : Str) (ht : headNotLt t) : mHeaderAnchor t = none :=
  mHeaderAnchor_none (@startsL_lt_false (strL "<a") rfl t ht)

theorem mCodeBlockDiv_silent (t : Str) (ht : headNotLt t) : mCodeBlockDiv t = none := by
  have hg := @startsL_lt_false (strL "<div class=\"language-") rfl t ht
  simp [mCodeBlockDiv, hg]

theorem mPrePlain_silent (t : Str) (ht : headNotLt t) : mPrePlain t = none := by
  have hg := @startsL_lt_false (strL "<pre") rfl t ht
  simp [mPrePlain, hg]

theorem mInlineCode_silent (t : Str) (ht : headNotLt t) : mInlineCode t = none := by
  have hg := @startsL_lt_false (strL "<code") rfl t ht
  simp [mInlineCode, hg]

theorem mHeader_silent (t : Str) (ht : headNotLt t) : mHeader t = none := by
  rcases t with _ | ⟨c, cs⟩
  · rfl
  · have hc : c ≠ '<' := headNotLt_ne ht c cs rfl
    rw [mHeader.eq_def]
    split <;> simp_all

theorem mCustomBlock_silent (t : Str) (ht : headNotLt t) : mCustomBlock t = none := by
  have hg := @startsL_lt_false (strL "<div class=\"") rfl t ht
  simp [mCustomBlock, hg]

theorem mTable_silent (t : Str) (ht : headNotLt t) : mTable t = none := by
  have hg := @startsL_lt_false (strL "<table") rfl t ht
  simp [mTable, hg]

theorem mImg_silent (t : Str) (ht : headNotLt t) : mImg t = none := by
  have hg := @startsCI_lt_false (strL "<img") rfl t ht
  simp [mImg, hg]

theorem mLink_silent (t : Str) (ht : headNotLt t) : mLink t = none := by
  have hg := @startsL_lt_false (strL "<a") rfl t ht
  simp [mLink, hg]

theorem mUl_silent (t : Str) (ht : headNotLt t) : mUl t = none := by
  have hg := @startsL_lt_false (strL "<ul") rfl t ht
  simp [mUl, hg]

theorem mOl_silent (t : Str) (ht : headNotLt t) : mOl t = none := by
  have hg := @startsL_lt_false (strL "<ol") rfl t ht
  simp [mOl, hg]

theorem mP_silent (t : Str) (ht : headNotLt t) : mP t = none := by
  have hg := @startsL_lt_false (strL "<p") rfl t ht
  simp [mP, hg]

theorem mPair_silent (openLit closeLit wrap : Str) (hl : openLit.head? = some '<')
    (t : Str) (ht : headNotLt t) : mPair openLit closeLit wrap t = none := by
  have hg := startsL_lt_false hl ht
  simp [mPair, hg]

theorem extract_main_id (s : Str) (hs : noCharCI '<' s = true) : extract_main_content s = s := by
  have hnm : '<' ∉ s := notMem_of_noCharCI hs (by decide)
  have h1 : findLitW (strL "<main") s = none := findLitW_none_lit _ _ '<' rfl hnm
  have h2 : findLitW (strL "<body") s = none := findLitW_none_lit _ _ '<' rfl hnm
  simp [extract_main_content, searchRegion, h1, h2]

theorem remove_hidden_id (s : Str) (hs : noCharCI '<' s = true) :
    remove_hidden_elements s = s := by
  rw [remove_hidden_elements,
    rewriteAllW_id_silent _ _ hs mHiddenDiv_silent,
    rewriteAllW_id_silent _ _ hs mCopyButton_silent,
    rewriteAllW_id_silent _ _ hs mHeaderAnchor_silent]

theorem stripTags_id (s : Str) (h : '<' ∉ s) : stripTags s = s := by
  rw [stripTags]
  induction s with
  | nil => rfl
  | cons c cs ih =>
    have hc : ¬ c = '<' := fun he => h (he ▸ List.mem_cons_self c cs)
    rw [stripTagsGo]
    simp only [hc, if_false]
    rw [ih fun hm => h (List.mem_cons_of_mem c hm)]

theorem map_self_of {α : Type} (f : α → α) (l : List α) (h : ∀ x ∈ l, f x = x) :
    l.map f = l := by
  induction l with
  | nil => rfl
  | cons x xs ih =>
    rw [List.map_cons, h x (List.mem_cons_self x xs),
      ih fun y hy => h y (List.mem_cons_of_mem x hy)]

theorem joinSep_splitCh (sep : Char) (s : Str) : joinSep [sep] (splitCh sep s) = s := by
  induction s with
  | nil => rfl
  | cons c cs ih =>
    by_cases hc : c = sep
    · subst hc
      rcases hcs : splitCh c cs with _ | ⟨p, ps⟩
      · exact absurd hcs (splitCh_ne_nil c cs)
      · rw [show splitCh c (c :: cs) = [] :: splitCh c cs by simp [splitCh], hcs, joinSep,
          ← hcs, ih]
        simp
    · rw [show splitCh sep (c :: cs) =
        (match splitCh sep cs with
          | [] => [[c]]
          | l :: ls => (c :: l) :: ls) by simp [splitCh, hc]]
      rcases hcs : splitCh sep cs with _ | ⟨p, ps⟩
      · exact absurd hcs (splitCh_ne_nil sep cs)
      · simp only []
        cases ps with
        | nil =>
          rw [joinSep]
          have : joinSep [sep] [p] = p := rfl
          rw [hcs] at ih
          rw [this] at ih
          rw [ih]
        | cons q qs =>
          rw [joinSep]
          rw [hcs, joinSep] at ih
          rw [← ih]
          simp

theorem cleanTextPart_id (s : Str) (h1 : '<' ∉ s) (h2 : noTripleNL s = true)
    (h3 : linesTrimmedB s = true) : cleanTextPart s = s := by
  rw [cleanTextPart, stripTags_id s h1, collapseNL_id h2,
    map_self_of pyStrip (splitNL s)
      (fun l hl => eq_of_beq ((List.all_eq_true.mp h3) l hl)),
    splitNL, joinSep_splitCh]

theorem cleanup_id (s : Str) (hbq : '`' ∉ s) (hlt : '<' ∉ s)
    (h2 : noTripleNL s = true) (h3 : linesTrimmedB s = true) (h4 : pyStrip s = s) :
    cleanup_whitespace s = s := by
  have hstart : ∀ t : Str, t <:+ s → startsL fence3 t = false := by
    intro t ht
    cases t with
    | nil => rfl
    | cons d ds =>
      have hd : d ∈ s := ht.subset (List.mem_cons_self d ds)
      have hne : d ≠ '`' := fun he => hbq (he ▸ hd)
      rw [show fence3 = '`' :: strL "``" from rfl]
      exact startsL_cons_false _ _ (Ne.symm hne)
  have hfm : ∀ t, t <:+ s → fenceMatch t = none := fun t ht => fenceMatch_none (hstart t ht)
  have hss := hstart s (List.suffix_refl s)
  rw [cleanup_whitespace, splitFences, splitFGo_id s hfm]
  simp only [List.map_cons, List.map_nil, hss, Bool.false_eq_true, if_false,
    List.flatten_cons, List.flatten_nil, List.append_nil]
  rw [cleanTextPart_id s hlt h2 h3, collapseNL_id h2, h4]

theorem clean_html_entities_id (s : Str) (h1 : '&' ∉ s) (h2 : Char.ofNat 8203 ∉ s) :
    clean_html_entities s = s := by
  rw [clean_html_entities, unescapeL_id s h1]
  exact List.filter_eq_self.mpr (fun a ha => decide_eq_true (fun he => h2 (he ▸ ha)))

theorem convert_code_blocks_id (s : Str) (hs : noCharCI '<' s = true) :
    convert_code_blocks s = s := by
  rw [convert_code_blocks, rewriteAllW_id_silent mCodeBlockDiv s hs mCodeBlockDiv_silent,
    rewriteAllW_id_silent mPrePlain s hs mPrePlain_silent]

theorem convert_inline_code_id (s : Str) (hs : noCharCI '<' s = true) :
    convert_inline_code s = s :=
  rewriteAllW_id_silent mInlineCode s hs mInlineCode_silent

theorem convert_headers_id (s : Str) (hs : noCharCI '<' s = true) :
    convert_headers s = s :=
  rewriteAllW_id_silent mHeader s hs mHeader_silent

theorem convert_custom_blocks_id (s : Str) (hs : noCharCI '<' s = true) :
    convert_custom_blocks s = s :=
  rewriteAllW_id_silent mCustomBlock s hs mCustomBlock_silent

theorem convert_tables_id (s : Str) (hs : noCharCI '<' s = true) :
    convert_tables s = s :=
  rewriteAllW_id_silent mTable s hs mTable_silent

theorem convert_images_id (s : Str) (hs : noCharCI '<' s = true) :
    convert_images s = s :=
  rewriteAllW_id_silent mImg s hs mImg_silent

theorem convert_links_id (s : Str) (hs : noCharCI '<' s = true) :
    convert_links s = s :=
  rewriteAllW_id_silent mLink s hs mLink_silent

theorem convert_lists_id (s : Str) (hs : noCharCI '<' s = true) :
    convert_lists s = s := by
  rw [convert_lists, rewriteAllW_id_silent mUl s hs mUl_silent,
    rewriteAllW_id_silent mOl s hs mOl_silent]

theorem convert_paragraphs_id (s : Str) (hs : noCharCI '<' s = true) :
    convert_paragraphs s = s :=
  rewriteAllW_id_silent mP s hs mP_silent

theorem convert_text_formatting_id (s : Str) (hs : noCharCI '<' s = true) :
    convert_text_formatting s = s := by
  rw [convert_text_formatting,
    rewriteAllW_id_silent _ s hs
      (mPair_silent (strL "<strong>") (strL "</strong>") (strL "**") rfl),
    rewriteAllW_id_silent _ s hs (mPair_silent (strL "<b>") (strL "</b>") (strL "**") rfl),
    rewriteAllW_id_silent _ s hs (mPair_silent (strL "<em>") (strL "</em>") (strL "*") rfl),
    rewriteAllW_id_silent _ s hs (mPair_silent (strL "<i>") (strL "</i>") (strL "*") rfl),
    rewriteAllW_id_silent _ s hs (mPair_silent (strL "<del>") (strL "</del>") (strL "~~") rfl),
    rewriteAllW_id_silent _ s hs (mPair_silent (strL "<s>") (strL "</s>") (strL "~~") rfl)]

/-- **C6 (corrected).** Converting a converted document is not the identity: the
synthesized title is prepended unconditionally.  For tag-free, entity-free,
backtick-free, zero-width-space-free input whose lines are trimmed, with no
`\n\n\n` run and no leading/trailing whitespace — all properties of well-formed
converter output bodies — a second conversion reproduces the input verbatim
below a freshly prepended title. -/
theorem convert_idem_amended (o n : String)
    (h1 : noCharCI '<' o.data = true)
    (h2 : '&' ∉ o.data)
    (h3 : '`' ∉ o.data)
    (h4 : Char.ofNat 8203 ∉ o.data)
    (h5 : linesTrimmedB o.data = true)
    (h6 : noTripleNL o.data = true)
    (h7 : pyStrip o.data = o.data) :
    convert_file o n =
      String.mk (strL "# " ++ generate_title n.data ++ strL "\n\n" ++ o.data) := by
  have hlt : '<' ∉ o.data := notMem_of_noCharCI h1 (by decide)
  have hp : convertPipe o.data = o.data := by
    rw [convertPipe, extract_main_id _ h1, remove_hidden_id _ h1,
      convert_code_blocks_id _ h1, convert_inline_code_id _ h1, convert_headers_id _ h1,
      convert_custom_blocks_id _ h1, convert_tables_id _ h1, convert_images_id _ h1,
      convert_links_id _ h1, convert_lists_id _ h1, convert_paragraphs_id _ h1,
      convert_text_formatting_id _ h1, clean_html_entities_id _ h2 h4,
      cleanup_id _ h3 hlt h6 h5 h7]
  have hb : convert_body o = String.mk o.data := by rw [convert_body, hp]
  have hgoal : convert_file o n =
      String.mk (strL "# " ++ generate_title n.data ++ strL "\n\n" ++ (convert_body o).data) := rfl
  rw [hgoal, hb]

/-- Concrete instance of the corrected C6: re-converting the body
`"# Setup\n\nhello"` under the name `setup.html` duplicates the title. -/
theorem convert_idem_amended_witness :
    convert_file (String.mk (strL "# Setup\n\nhello")) (String.mk (strL "setup.html")) =
      String.mk (strL "# Setup\n\n# Setup\n\nhello") := by
  have h := convert_idem_amended (String.mk (strL "# Setup\n\nhello"))
    (String.mk (strL "setup.html"))
    (by decide) (by decide) (by decide) (by decide) (by decide) (by decide) (by decide)
  rw [h]
  rfl
